import Mathlib

/-!
Verification development for the POCKETFLOWGRAPH workflow engine.

The definitions below are a shallow embedding of the Python sources:
  * `src/backend/nodes/base.py`   (`BasePlatformNode.post`, result commits, events)
  * `src/backend/engine.py`       (`BranchNode`, `build_graph`, `run_workflow`)
  * `src/backend/nodes/control_flow.py` (`IfElseNode`, `WhileNode`, `SubWorkflowNode`)
  * `src/backend/nodes/human.py`  (`HumanInputNode`, `pending_requests`)

Python dictionaries are embedded as ordered association lists (insertion
ordered, unique keys when built through the operations below), JSON-like
runtime values as the inductive `Val`, and exceptions as `Except String`.
The PocketFlow `Flow`/`Node` orchestration loop itself is an external
library that is not part of this repository; it is modelled from the
specification where noted.
-/

namespace PFG

/-- Runtime values: the JSON-like Python values flowing through a run. -/
inductive Val where
  | str (s : String)
  | num (n : Int)
  | bool (b : Bool)
  | null
  | arr (xs : List Val)
  | obj (fields : List (String × Val))

/-- Ordered association list standing for a Python `dict` (insertion order). -/
abbrev Entries := List (String × Val)

/-- Lookup of a key in an ordered map (Python `d.get(k)` / `d[k]`). -/
def lookupE (m : Entries) (k : String) : Option Val :=
  (m.find? (fun p => p.1 == k)).map (fun p => p.2)

/-- Key membership test (Python `k in d`). -/
def hasKey (m : Entries) (k : String) : Bool :=
  m.any (fun p => p.1 == k)

/-- Key removal (Python `del d[k]`; removes every binding of `k`). -/
def eraseKey (m : Entries) (k : String) : Entries :=
  m.filter (fun p => p.1 != k)

/-- Assignment `d[k] = v` on a Python dict: an existing key keeps its
position and gets the new value, a fresh key is appended at the end. -/
def setKey (m : Entries) (k : String) (v : Val) : Entries :=
  if hasKey m k then m.map (fun p => if p.1 == k then (p.1, v) else p)
  else m ++ [(k, v)]

/-- Python `d.update(data)`: fold `setKey` over the entries of `data`. -/
def updMap (m data : Entries) : Entries :=
  data.foldl (fun acc p => setKey acc p.1 p.2) m

/-- Result-map write from `BasePlatformNode.post` (base.py:136-139): the key is
first deleted if present and then re-inserted, so it always lands at the end. -/
def writeResult (m : Entries) (k : String) (v : Val) : Entries :=
  eraseKey m k ++ [(k, v)]

/-- Number of entries carrying key `k`. -/
def countKey (m : Entries) (k : String) : Nat :=
  (m.filter (fun p => p.1 == k)).length

/-- Shared per-run state (the Python `shared` dict): `results` and `memory`
as in the spec's ExecutionContext, and `extra` for the private top-level
loop-state keys such as `_while_<id>` and `_loop_<id>`. -/
structure Ctx where
  results : Entries
  memory : Entries
  extra : Entries

/-- Initial shared state of a run (`shared_state = {}` in engine.py:137;
the three sections start empty). -/
def Ctx.empty : Ctx := ⟨[], [], []⟩

/-- Commit of a node value from `BasePlatformNode.post` (base.py:128-146):
write under the display name, then additionally under the node id when the
id attribute is set (non-empty). -/
def basePost (name id : String) (v : Val) (ctx : Ctx) : Ctx :=
  let r1 := writeResult ctx.results name v
  let r2 := if id ≠ "" then writeResult r1 id v else r1
  { ctx with results := r2 }

/-! Workflow schema (src/backend/schemas.py). `position` is ignored by the
core and omitted; `data` is the node's parameter map. -/

/-- Edge of a workflow definition (schemas.py:11-15). -/
structure Edge where
  source : String
  target : String
  sourceHandle : Option String
  targetHandle : Option String

/-- Node of a workflow definition (schemas.py:17-22). -/
structure NodeConfig where
  id : String
  type : String
  label : String
  data : Entries

/-- Workflow definition (schemas.py:24-26). -/
structure Workflow where
  nodes : List NodeConfig
  edges : List Edge

/-! Graph compiler (engine.py `build_graph`). The node registry
(`node_registry.py`) is a fixed name-to-factory map populated at startup;
membership is embedded as the predicate `registered`, and the behaviour a
factory attaches to an instance as the `bodyOf` assignment used by the
execution model below. -/

/-- Display name attached to an instance: `node_config.label or node_config.id`
(engine.py:54; an empty label is falsy in Python). -/
def displayName (n : NodeConfig) : String :=
  if n.label = "" then n.id else n.label

/-- Output label of an edge, from `sourceHandle` (engine.py:72-75): the text
after `"out-"` when the handle starts with it, else `"default"`. -/
def edgeLabel (e : Edge) : String :=
  match e.sourceHandle with
  | some h => if h.startsWith "out-" then h.drop 4 else "default"
  | none => "default"

/-- Input slot of an edge, from `targetHandle` (engine.py:82-85): default
`"in-default"`, with an `"in-"` prefix stripped when present. -/
def inputSlot (e : Edge) : String :=
  let h := e.targetHandle.getD "in-default"
  if h.startsWith "in-" then h.drop 3 else h

/-- Instantiated nodes (engine.py:44-61): configs whose type the registry
knows, in declaration order; unknown types are skipped with a warning.
Node ids are unique within a workflow (spec data model), which makes this
list mirror the Python `pf_nodes` dict. -/
def instNodes (registered : String → Bool) (wf : Workflow) : List NodeConfig :=
  wf.nodes.filter (fun n => registered n.type)

/-- Edges whose two endpoints are instantiated nodes (engine.py:67-71): only
those create connections and input mappings. -/
def connectedEdges (registered : String → Bool) (wf : Workflow) : List Edge :=
  wf.edges.filter (fun e =>
    (instNodes registered wf).any (fun n => n.id == e.source) &&
    (instNodes registered wf).any (fun n => n.id == e.target))

/-- Input mapping of a target node (engine.py:82-89): slot name to the source
node's display name, folded over the connected edges in order. -/
def inputMappingFor (registered : String → Bool) (wf : Workflow)
    (targetId : String) : List (String × String) :=
  (connectedEdges registered wf).foldl
    (fun acc e =>
      if e.target == targetId then
        let srcName :=
          (((instNodes registered wf).find? (fun n => n.id == e.source)).map
            displayName).getD ""
        if acc.any (fun p => p.1 == inputSlot e) then
          acc.map (fun p => if p.1 == inputSlot e then (p.1, srcName) else p)
        else acc ++ [(inputSlot e, srcName)]
      else acc)
    []

/-- Targets grouped under one `(sourceId, outputLabel)` key (engine.py:77-80):
the edge-declaration-ordered target ids of the matching connected edges. -/
def targetsFor (registered : String → Bool) (wf : Workflow)
    (sourceId label : String) : List String :=
  ((connectedEdges registered wf).filter
    (fun e => e.source == sourceId && edgeLabel e == label)).map (fun e => e.target)

/-- In-degree used for root finding (engine.py:110-113): the count of ALL
workflow edges whose target is this id — the source endpoint is not
checked there, unlike connection building. -/
def inDeg (wf : Workflow) (id : String) : Nat :=
  (wf.edges.filter (fun e => e.target == id)).length

/-- Compiled node: its config, display name and input mapping. -/
structure CNode where
  cfg : NodeConfig
  name : String
  inputMapping : List (String × String)

/-- Compiled graph: instance list, the connected edges (carrying the successor
groups), and the root ids (in-degree 0, in declaration order). -/
structure CGraph where
  nodes : List CNode
  cedges : List Edge
  roots : List String

/-- Successor of a node under one output label: a single target (direct
transition, engine.py:95-100) or a synthetic fan-out over several targets
(`BranchNode`, engine.py:101-107). -/
inductive Succ where
  | one (targetId : String)
  | fanout (targetIds : List String)

/-- Successor lookup for the compiled graph, reproducing `successors_map`
(engine.py:63-107): no edge gives no successor, a single edge a direct one,
several edges the fan-out wrapper over the targets in edge order. -/
def lookupSucc (g : CGraph) (sourceId label : String) : Option Succ :=
  match (g.cedges.filter
      (fun e => e.source == sourceId && edgeLabel e == label)).map
      (fun e => e.target) with
  | [] => none
  | [t] => some (Succ.one t)
  | ts => some (Succ.fanout ts)

/-- Compile error message for a root-less graph (engine.py:118). -/
def noStartMsg : String := "No start node found (cyclic or empty?)"

/-- Graph compiler (engine.py:40-122): instantiate registered nodes, collect
connections and input mappings, compute in-degrees over all edges and take
the in-degree-0 instances as roots; zero roots is a compile error. -/
def build_graph (registered : String → Bool) (wf : Workflow) :
    Except String CGraph :=
  let inst := instNodes registered wf
  let cnodes := inst.map (fun n =>
    { cfg := n, name := displayName n
      inputMapping := inputMappingFor registered wf n.id })
  let roots := (inst.filter (fun n => inDeg wf n.id == 0)).map (fun n => n.id)
  if roots.isEmpty then .error noStartMsg
  else .ok { nodes := cnodes, cedges := connectedEdges registered wf, roots := roots }

/-! Execution engine. The PocketFlow `Flow`/`Node` orchestration loop is an
external library, not part of this repository; the walk below is modelled
from the spec: visit the current node's three phases, look the returned
transition up among its successors (a missing `finalize` result means
`"default"`), move there or terminate. Per the source's own comment
(base.py:151, "Run() is bypassed by PocketFlow engine"), orchestration
invokes the phases directly, so the events of a visit are exactly the ones
`BasePlatformNode.post` emits. -/

/-- Lifecycle events handed to the Event Sink callback. `state_update`
carries the (identity-)serialized `results` and `memory` snapshots. -/
inductive Ev where
  | node_start (nodeId : String)
  | node_end (nodeId nodeName : String)
  | state_update (results memory : Entries) (nodeId : String)
  | node_error (nodeId error : String)

/-- Behaviour of one node instance: given the shared state, either raise
(`NodeExecutionError`) or produce the value committed by `post`, the shared
state after the node's own memory/loop-state mutations, and the transition
name `post` returns (`none` meaning `"default"`). -/
abbrev Body := Ctx → Except String (Val × Ctx × Option String)

/-- Outcome of a walk: normal termination, an uncaught node error, or fuel
exhaustion (the model's stand-in for a non-terminating Python run). -/
inductive WOut where
  | ok
  | failed (msg : String)
  | fuelOut

/-- Result of a walk: final shared state, emitted event trace, the ids of the
nodes whose lifecycle ran (bookkeeping, in visit order), and the outcome. -/
structure WRes where
  ctx : Ctx
  trace : List Ev
  execs : List String
  outcome : WOut

/-- Transition-driven walk from a successor, indexed by fuel (a model
artifact standing in for a possibly endless Python run; every step —
including a fan-out dispatch — consumes one unit). A `.one` visit runs the
node's body, commits via `basePost`, emits the `post` events, and
continues along the successor of the returned transition; a `.fanout` (the
`BranchNode` of engine.py:9-38) runs one mini-flow per target sequentially
over the same shared state and itself commits nothing and emits nothing. -/
def walkFrom (bodyOf : NodeConfig → Body) (g : CGraph) :
    Nat → Succ → Ctx → WRes
  | 0, _, ctx => ⟨ctx, [], [], .fuelOut⟩
  | fuel + 1, .one id, ctx =>
    match g.nodes.find? (fun n => n.cfg.id == id) with
    | none => ⟨ctx, [], [], .ok⟩
    | some n =>
      match bodyOf n.cfg ctx with
      | .error e => ⟨ctx, [], [id], .failed e⟩
      | .ok (v, ctx1, t) =>
        let ctx2 := basePost n.name n.cfg.id v ctx1
        let evs := [Ev.node_end n.cfg.id n.name,
                    Ev.state_update ctx2.results ctx2.memory n.cfg.id]
        match lookupSucc g n.cfg.id (t.getD "default") with
        | none => ⟨ctx2, evs, [id], .ok⟩
        | some s =>
          let r := walkFrom bodyOf g fuel s ctx2
          ⟨r.ctx, evs ++ r.trace, id :: r.execs, r.outcome⟩
  | _ + 1, .fanout [], ctx => ⟨ctx, [], [], .ok⟩
  | fuel + 1, .fanout (id :: rest), ctx =>
    let r := walkFrom bodyOf g fuel (.one id) ctx
    match r.outcome with
    | .ok =>
      let r2 := walkFrom bodyOf g fuel (.fanout rest) r.ctx
      ⟨r2.ctx, r.trace ++ r2.trace, r.execs ++ r2.execs, r2.outcome⟩
    | _ => r

/-- Sequential walk of a list of entry points sharing one context, used for
the roots of the compiled flow. -/
def walkList (bodyOf : NodeConfig → Body) (g : CGraph) (fuel : Nat) :
    List String → Ctx → WRes
  | [], ctx => ⟨ctx, [], [], .ok⟩
  | id :: rest, ctx =>
    let r := walkFrom bodyOf g fuel (.one id) ctx
    match r.outcome with
    | .ok =>
      let r2 := walkList bodyOf g fuel rest r.ctx
      ⟨r2.ctx, r.trace ++ r2.trace, r.execs ++ r2.execs, r2.outcome⟩
    | _ => r

/-- Run result value (engine.py:141 and engine.py:146). -/
inductive RunRes where
  | completed (results : Entries)
  | failed (error : String)

/-- Observable outcome of `run_workflow`: the returned value or raised
exception, the emitted event trace, and the executed-node log. -/
structure RunOut where
  outcome : Except String RunRes
  trace : List Ev
  execs : List String

/-- Run entry point (engine.py:124-146): build the graph — a compile error is
re-raised (engine.py:127-128) — then walk from the roots over an empty
shared state; a completed walk returns `completed` with the results
section, any exception in the walk is caught and returned as `failed`.
`none` stands for a run the fuel cannot finish. -/
def run_workflow (registered : String → Bool) (bodyOf : NodeConfig → Body)
    (fuel : Nat) (wf : Workflow) : Option RunOut :=
  match build_graph registered wf with
  | .error e => some ⟨.error e, [], []⟩
  | .ok g =>
    let w := walkList bodyOf g fuel g.roots Ctx.empty
    match w.outcome with
    | .fuelOut => none
    | .failed e => some ⟨.ok (.failed e), w.trace, w.execs⟩
    | .ok => some ⟨.ok (.completed w.ctx.results), w.trace, w.execs⟩

/-! Control-flow nodes (src/backend/nodes/control_flow.py). The Python
expression evaluator (`eval` with empty builtins followed by `bool(...)`)
is embedded abstractly as a fallible boolean predicate over the evaluation
context; an `Except.error` result stands for an evaluation exception. -/

/-- Python truthiness of a runtime value (`bool(x)`). -/
def pyTruthy : Val → Bool
  | .str s => !s.isEmpty
  | .num n => n != 0
  | .bool b => b
  | .null => false
  | .arr xs => !xs.isEmpty
  | .obj fs => !fs.isEmpty

/-- Configuration of an `IfElseNode`: the condition (as the embedded
evaluator applied to the `input` binding) and the optional literal
`value` override (empty string when absent, which is falsy). -/
structure IfCfg where
  condition : Val → Except String Bool
  value : String

/-- Body of `IfElseNode` (control_flow.py:32-70): the input is the `value`
override when non-empty, else the most recent results entry, else `""`;
the condition is evaluated over it with evaluation errors swallowed as
`False`; the boolean is committed and `"true"`/`"false"` returned. -/
def ifElseBody (cfg : IfCfg) : Body := fun ctx =>
  let input : Val :=
    if cfg.value ≠ "" then .str cfg.value
    else match ctx.results.getLast? with
      | some p => p.2
      | none => .str ""
  let b :=
    match cfg.condition input with
    | .ok r => r
    | .error _ => false
  .ok (.bool b, ctx, some (if b then "true" else "false"))

/-- Configuration of a `WhileNode`: the condition over the evaluation
context and `int(cfg.get("max_iterations", 100))`. -/
structure WhileCfg where
  condition : Entries → Except String Bool
  maxIterations : Int

/-- Private loop-state key of a While node (control_flow.py:200). -/
def whileKey (id : String) : String := "_while_" ++ id

/-- Loop-state section after the prepare phase of `WhileNode`
(control_flow.py:202-204): the counter entry is created on first visit. -/
def ensuredExtra (id : String) (ctx : Ctx) : Entries :=
  if hasKey ctx.extra (whileKey id) then ctx.extra
  else ctx.extra ++ [(whileKey id, Val.obj [("iteration", Val.num 0)])]

/-- Evaluation context built by the prepare phase of `WhileNode`
(control_flow.py:206-217): `iteration` from the stored counter, overridden
by every `memory` binding (`context.update`), then `input` assigned from
the most recent results entry. -/
def whileEvalCtx (id : String) (ctx : Ctx) : Entries :=
  let iterV : Val :=
    match lookupE (ensuredExtra id ctx) (whileKey id) with
    | some (Val.obj o) => (lookupE o "iteration").getD (Val.num 0)
    | _ => Val.num 0
  let c1 := updMap [("iteration", iterV)] ctx.memory
  match ctx.results.getLast? with
  | some p => setKey c1 "input" p.2
  | none => c1

/-- Prepare phase of `WhileNode` (control_flow.py:197-219): the state with
the counter ensured, and the evaluation context. -/
def whilePrep (id : String) (ctx : Ctx) : Ctx × Entries :=
  ({ ctx with extra := ensuredExtra id ctx }, whileEvalCtx id ctx)

/-- Python comparison `v >= m` against an int: defined on numbers and
booleans, a `TypeError` otherwise. -/
def pyGeInt (v : Val) (m : Int) : Except String Bool :=
  match v with
  | .num n => .ok (decide (n ≥ m))
  | .bool b => .ok (decide ((if b then (1 : Int) else 0) ≥ m))
  | _ => .error "TypeError: unsupported comparison"

/-- Execute phase of `WhileNode` (control_flow.py:221-237): the cap check
compares `context["iteration"]` — the possibly-memory-shadowed binding —
against `max_iterations` and is not guarded by the try block; condition
evaluation errors are swallowed into a `done` outcome. Returns whether the
loop continues. -/
def whileExec (cfg : WhileCfg) (context : Entries) : Except String Bool := do
  let iterV := (lookupE context "iteration").getD Val.null
  let capped ← pyGeInt iterV cfg.maxIterations
  if capped then pure false
  else
    match cfg.condition context with
    | .ok b => pure b
    | .error _ => pure false

/-- Body of `WhileNode` (control_flow.py:197-251): on continue the stored
counter is incremented and committed and `"continue"` returned; otherwise
the loop state is deleted, `"while_complete"` committed and `"done"`
returned. A malformed stored counter raises, as the Python `+= 1` would. -/
def whileBody (id : String) (cfg : WhileCfg) : Body := fun ctx => do
  let pr := whilePrep id ctx
  let cont ← whileExec cfg pr.2
  if cont then
    match lookupE pr.1.extra (whileKey id) with
    | some (Val.obj o) =>
      match lookupE o "iteration" with
      | some (Val.num n) =>
        let extra := setKey pr.1.extra (whileKey id)
          (Val.obj (setKey o "iteration" (Val.num (n + 1))))
        .ok (Val.num (n + 1), { pr.1 with extra := extra }, some "continue")
      | _ => .error "TypeError: unsupported operand"
    | _ => .error "KeyError: loop state missing"
  else
    .ok (Val.str "while_complete",
      { pr.1 with extra := eraseKey pr.1.extra (whileKey id) }, some "done")

/-- One full visit of a node body through the engine's commit step: the body
runs, `basePost` commits under display name and id, and the `post` events
are emitted (the `node_start`/`node_error` sites live in the bypassed
`run()` wrapper). Mirrors the `.one` case of `walkFrom` for a node taken
in isolation. -/
def visitNode (name id : String) (body : Body) (ctx : Ctx) :
    Except String (Ctx × Option String × List Ev) := do
  let (v, ctx1, t) ← body ctx
  let ctx2 := basePost name id v ctx1
  .ok (ctx2, t, [Ev.node_end id name, Ev.state_update ctx2.results ctx2.memory id])

/-- Visit of a `WhileNode`. -/
def whileVisit (name id : String) (cfg : WhileCfg) (ctx : Ctx) :
    Except String (Ctx × Option String × List Ev) :=
  visitNode name id (whileBody id cfg) ctx

/-- Visit of an `IfElseNode`. -/
def ifElseVisit (name id : String) (cfg : IfCfg) (ctx : Ctx) :
    Except String (Ctx × Option String × List Ev) :=
  visitNode name id (ifElseBody cfg) ctx

/-- Transitions produced by `k` consecutive visits of one While node (the
revisits a loop edge back to the node causes), with the shared state
threaded through. -/
def whileTransitions (name id : String) (cfg : WhileCfg) :
    Nat → Ctx → Except String (List String × Ctx)
  | 0, ctx => .ok ([], ctx)
  | k + 1, ctx => do
    let (ctx1, t, _) ← whileVisit name id cfg ctx
    let (ts, ctx2) ← whileTransitions name id cfg k ctx1
    .ok ((t.getD "default") :: ts, ctx2)

/-- Transition list of a `whileTransitions` outcome (empty on an exception),
for stating concrete evaluations without binders. -/
def transitionsOf (r : Except String (List String × Ctx)) : List String :=
  match r with
  | .ok (ts, _) => ts
  | .error _ => []

/-! HumanInput node (src/backend/nodes/human.py). The blocking wait on the
threading event is embedded by its observable outcome: either an external
resume stored a payload before the timeout (`some payload`) or the timeout
elapsed (`none`). The process-wide `pending_requests` registry is embedded
as the list of registered request ids, threaded explicitly. -/

/-- Dictionary returned by `HumanInputNode.exec` (human.py:79-94). -/
structure HumanExecRes where
  success : Bool
  data : Val
  approvedV : Val
  error : Option String

/-- Execute phase of `HumanInputNode` (human.py:52-94): register the request
id; on timeout purge the entry and return the error outcome (no exception);
on resume read the payload, purge the entry, and return it together with
its `approved` field (default `True` when absent or when the payload is
not a dict). -/
def humanExec (reqId : String) (resume : Option Val) (pending : List String) :
    List String × HumanExecRes :=
  let registered := pending ++ [reqId]
  match resume with
  | none =>
    (registered.filter (fun x => x != reqId),
     { success := false, data := .null, approvedV := .bool false
       error := some "Timeout" })
  | some payload =>
    (registered.filter (fun x => x != reqId),
     { success := true, data := payload
       approvedV :=
         match payload with
         | .obj o => (lookupE o "approved").getD (.bool true)
         | _ => .bool true
       error := none })

/-- Full visit of a `HumanInputNode` (exec then post, human.py:96-114): on
success the payload's keys are merged into memory when it is a dict, the
payload is committed, and `approved`/`rejected` is routed by the truthiness
of the `approved` field; otherwise the error string is committed and no
approval transition is routed (`None`, i.e. the `default` edge). -/
def humanStep (name id reqId : String) (resume : Option Val)
    (pending : List String) (ctx : Ctx) : List String × Ctx × Option String :=
  let (pending1, er) := humanExec reqId resume pending
  if er.success then
    let ctx1 :=
      match er.data with
      | .obj fs => { ctx with memory := updMap ctx.memory fs }
      | _ => ctx
    let ctx2 := basePost name id er.data ctx1
    (pending1, ctx2, some (if pyTruthy er.approvedV then "approved" else "rejected"))
  else
    (pending1, basePost name id (.str (er.error.getD "User input failed")) ctx, none)

/-! SubWorkflow node (control_flow.py:436-508). File-system access and the
JSON load of the persisted workflow are embedded as an environment value,
the rest of the body follows the source: compile the loaded workflow with
the real `build_graph`, run it over a forked context, and wrap every
failure into an error string instead of raising. -/

/-- Configuration of a `SubWorkflowNode`: `workflow_name` (default `""`) and
`pass_memory` (default `True`). -/
structure SubCfg where
  workflowName : String
  passMemory : Bool

/-- External world of a sub-workflow execution: whether
`backend/workflows/<name>.json` exists, and the outcome of opening,
JSON-parsing and validating it (`Except.error` for any exception there). -/
structure SubEnv where
  fileExists : Bool
  load : Except String Workflow

/-- Execute phase of `SubWorkflowNode` (control_flow.py:455-504): empty name,
missing file, load failure, compile failure and a raising sub-run each
produce an error-description string; a completed sub-run returns its
results dict, merging the sub memory back when `pass_memory`. `none`
stands for a sub-run the fuel cannot finish. -/
def subExec (registered : String → Bool) (bodyOf : NodeConfig → Body)
    (fuel : Nat) (env : SubEnv) (cfg : SubCfg) (ctx : Ctx) :
    Option (Val × Ctx) :=
  if cfg.workflowName = "" then
    some (.str "Error: No workflow name provided", ctx)
  else if !env.fileExists then
    some (.str ("Error: Workflow '" ++ cfg.workflowName ++
      "' not found at backend/workflows/" ++ cfg.workflowName ++ ".json"), ctx)
  else
    match env.load with
    | .error e => some (.str ("Error executing sub-workflow: " ++ e), ctx)
    | .ok wf =>
      match build_graph registered wf with
      | .error e => some (.str ("Error building sub-workflow: " ++ e), ctx)
      | .ok g =>
        let subCtx : Ctx :=
          { results := []
            memory := if cfg.passMemory then ctx.memory else []
            extra := [] }
        let w := walkList bodyOf g fuel g.roots subCtx
        match w.outcome with
        | .fuelOut => none
        | .failed e => some (.str ("Error executing sub-workflow: " ++ e), ctx)
        | .ok =>
          let ctx1 :=
            if cfg.passMemory then
              { ctx with memory := updMap ctx.memory w.ctx.memory }
            else ctx
          some (.obj w.ctx.results, ctx1)

/-- Observable outcome of a full SubWorkflow visit. -/
structure SubOut where
  value : Val
  ctx : Ctx
  transition : Option String

/-- Full visit of a `SubWorkflowNode` (exec then post, control_flow.py:
506-508): the exec value is committed via the base post and `None` is
returned, routing the `default` transition. -/
def subVisit (name id : String) (registered : String → Bool)
    (bodyOf : NodeConfig → Body) (fuel : Nat) (env : SubEnv) (cfg : SubCfg)
    (ctx : Ctx) : Option SubOut :=
  match subExec registered bodyOf fuel env cfg ctx with
  | none => none
  | some (v, ctx1) => some ⟨v, basePost name id v ctx1, none⟩

/-- Projection of a visit outcome: `some transition` when the visit returned
normally, `none` when it raised. -/
def transitionOfVisit (r : Except String (Ctx × Option String × List Ev)) :
    Option (Option String) :=
  match r with
  | .ok (_, t, _) => some t
  | .error _ => none

/-! Concrete fixtures used by witnesses and counterexamples. -/

/-- Registry fixture knowing the single type name `"leaf"`. -/
def regLeaf : String → Bool := fun t => t == "leaf"

/-- Body fixture producing a constant value with no state change. -/
def constBody (v : Val) : Body := fun ctx => .ok (v, ctx, none)

/-- Body fixture raising a `NodeExecutionError`. -/
def raiseBody (msg : String) : Body := fun _ => .error msg

/-- Body fixture writing one memory key and passing its value through. -/
def memBody (k : String) (v : Val) : Body :=
  fun ctx => .ok (v, { ctx with memory := setKey ctx.memory k v }, none)

/-- Node-config fixture (parameters empty; position ignored by the core). -/
def nodeC (id label ty : String) : NodeConfig := ⟨id, ty, label, []⟩

/-- Edge fixture with default handles. -/
def edgeC (s t : String) : Edge := ⟨s, t, none, none⟩

/-- Roots of a compile outcome, `none` for a compile error. -/
def rootsOf : Except String CGraph → Option (List String)
  | .ok g => some g.roots
  | .error _ => none

/-- Test whether an event is a `node_start` or `node_error` — the two events
whose emission sites live only in the bypassed `run()` wrapper
(base.py:60-76 and base.py:117-123). -/
def Ev.isStartOrError : Ev → Bool
  | .node_start _ => true
  | .node_error _ _ => true
  | _ => false

/-- Discipline of an engine event trace: a sequence of `node_end` events each
immediately followed by the `state_update` snapshot of the same node. -/
def wellPaired : List Ev → Bool
  | [] => true
  | Ev.node_end i _ :: Ev.state_update _ _ i2 :: rest => (i2 == i) && wellPaired rest
  | _ => false

/-- Truthiness of an evaluation outcome as the While exec uses it: an error
counts as a false condition. -/
def condAsBool (r : Except String Bool) : Bool :=
  match r with
  | .ok b => b
  | .error _ => false

/-- Events emitted by `BasePlatformNode.post` for a finished visit. -/
def postEvs (id name : String) (c : Ctx) : List Ev :=
  [Ev.node_end id name, Ev.state_update c.results c.memory id]

/-- State after a continuing While visit: counter incremented and the new
count committed. -/
def whileStepCtx (name id : String) (ctx : Ctx) (c : Int) : Ctx :=
  basePost name id (Val.num (c + 1))
    { ctx with extra := (setKey (ensuredExtra id ctx) (whileKey id)
        (Val.obj [("iteration", Val.num (c + 1))])) }

/-- State after a terminating While visit: loop state deleted and
`"while_complete"` committed. -/
def whileDoneCtx (name id : String) (ctx : Ctx) : Ctx :=
  basePost name id (Val.str "while_complete")
    { ctx with extra := eraseKey (ensuredExtra id ctx) (whileKey id) }

/-- Body assignment fixture for fan-out runs: every node writes the memory
key equal to its own id (the spec's "verify via a memory key each target
writes") and produces the value 1. -/
def bodyFan : NodeConfig → Body := fun c => memBody c.id (Val.num 1)

/-- Executed-node log of a run outcome. -/
def execsOf : Option RunOut → List String
  | some w => w.execs
  | none => []

/-- Results of a completed run outcome, `none` otherwise. -/
def resultsOfRun : Option RunOut → Option Entries
  | some w =>
    match w.outcome with
    | .ok (.completed r) => some r
    | _ => none
  | none => none

/-- Fan-out workflow family: one source of a registered type and one edge
from it to each target, all on the `default` label, in declaration
order. -/
def fanWf (src : String) (tids : List String) : Workflow :=
  ⟨nodeC src "" "leaf" :: tids.map (fun t => nodeC t "" "leaf"),
   tids.map (fun t => edgeC src t)⟩

/-- Compiled graph of the fan-out family, as `build_graph` produces it. -/
def fanGraph (src : String) (tids : List String) : CGraph :=
  ⟨(fanWf src tids).nodes.map (fun n =>
      ⟨n, displayName n, inputMappingFor regLeaf (fanWf src tids) n.id⟩),
    tids.map (fun t => edgeC src t), [src]⟩

/-! Theorems. Helper lemmas first, then one theorem per claim. -/

/-- Helper: a result write always lands at the end of the map. -/
theorem writeResult_getLast (m : Entries) (k : String) (v : Val) :
    (writeResult m k v).getLast? = some (k, v) := by
  simp [writeResult]

/-- Helper: after a write, the written key has exactly one entry. -/
theorem countKey_writeResult_self (m : Entries) (k : String) (v : Val) :
    countKey (writeResult m k v) k = 1 := by
  simp [countKey, writeResult, eraseKey, List.filter_append, List.filter_filter]

/-- Helper: a write leaves the entries of every other key untouched, in
order. -/
theorem filter_writeResult_other (m : Entries) (k k' : String) (v : Val)
    (h : k' ≠ k) :
    (writeResult m k v).filter (fun p => p.1 == k') =
      m.filter (fun p => p.1 == k') := by
  simp [writeResult, eraseKey, List.filter_append, List.filter_filter, Ne.symm h]
  apply List.filter_congr
  intro a _
  by_cases ha : a.1 = k'
  · simp [ha, h]
  · simp [ha]

/-- Helper: a write keeps the entry count of every other key. -/
theorem countKey_writeResult_other (m : Entries) (k k' : String) (v : Val)
    (h : k' ≠ k) :
    countKey (writeResult m k v) k' = countKey m k' := by
  simp [countKey, filter_writeResult_other m k k' v h]

/-- C2: a results write under an already-present key evicts the entry and
re-inserts it at the end — after the write the key has exactly one entry,
positioned last, and all other keys keep their entries and order, so
insertion order equals recency order; at node level, after
`BasePlatformNode.post` both the display-name key and the id key have
exactly one entry each and the most recent write (the id) is last. -/
theorem results_rewrite_moves_to_end (m : Entries) (k k' : String) (v : Val)
    (name id : String) (w : Val) (ctx : Ctx)
    (hk : k' ≠ k) (hid : id ≠ "") (hni : name ≠ id) :
    (writeResult m k v).getLast? = some (k, v) ∧
    countKey (writeResult m k v) k = 1 ∧
    (writeResult m k v).filter (fun p => p.1 == k') =
      m.filter (fun p => p.1 == k') ∧
    countKey (basePost name id w ctx).results id = 1 ∧
    countKey (basePost name id w ctx).results name = 1 ∧
    (basePost name id w ctx).results.getLast? = some (id, w) := by
  refine ⟨writeResult_getLast m k v, countKey_writeResult_self m k v,
    filter_writeResult_other m k k' v hk, ?_, ?_, ?_⟩
  · simp only [basePost, if_pos hid]
    exact countKey_writeResult_self _ id w
  · simp only [basePost, if_pos hid]
    rw [countKey_writeResult_other _ id name w hni]
    exact countKey_writeResult_self _ name w
  · simp only [basePost, if_pos hid]
    exact writeResult_getLast _ id w

/-- C2 witness: the rewrite semantics evaluated at a concrete revisited key. -/
theorem results_rewrite_moves_to_end_witness :
    (("b" : String) ≠ "a" ∧ ("n1" : String) ≠ "" ∧ ("A" : String) ≠ "n1") ∧
    ((writeResult [("a", .num 1), ("b", .num 2)] "a" (.num 3)).getLast? =
        some ("a", .num 3) ∧
      countKey (writeResult [("a", .num 1), ("b", .num 2)] "a" (.num 3)) "a" = 1 ∧
      (writeResult [("a", .num 1), ("b", .num 2)] "a" (.num 3)).filter
          (fun p => p.1 == "b") =
        [("a", Val.num 1), ("b", Val.num 2)].filter (fun p => p.1 == "b") ∧
      countKey (basePost "A" "n1" (.num 7) Ctx.empty).results "n1" = 1 ∧
      countKey (basePost "A" "n1" (.num 7) Ctx.empty).results "A" = 1 ∧
      (basePost "A" "n1" (.num 7) Ctx.empty).results.getLast? =
        some ("n1", .num 7)) :=
  ⟨⟨by decide, by decide, by decide⟩,
    results_rewrite_moves_to_end [("a", .num 1), ("b", .num 2)] "a" "b"
      (.num 3) "A" "n1" (.num 7) Ctx.empty (by decide) (by decide) (by decide)⟩

/-- C6: a Conditional whose condition evaluation raises swallows the error and
routes the `false` transition (committing `False`), and a While node whose
condition evaluation raises routes `done`, provided its unguarded iteration
cap check itself evaluates — an expression-evaluation error never
propagates out of either visit. -/
theorem expression_errors_swallowed (msg : String) (cfgv : String)
    (name id : String) (ctx : Ctx) (wcfg : WhileCfg) (b : Bool)
    (hcond : wcfg.condition = fun _ => .error msg)
    (hcap : pyGeInt (((lookupE (whilePrep id ctx).2 "iteration")).getD .null)
      wcfg.maxIterations = .ok b) :
    ifElseVisit name id ⟨fun _ => .error msg, cfgv⟩ ctx =
      .ok (basePost name id (.bool false) ctx, some "false",
        [Ev.node_end id name,
         Ev.state_update (basePost name id (.bool false) ctx).results
           ctx.memory id]) ∧
    transitionOfVisit (whileVisit name id wcfg ctx) = some (some "done") := by
  constructor
  · rfl
  · cases hb : b
    · simp [whileVisit, visitNode, whileBody, whileExec, hcond, hb ▸ hcap,
        transitionOfVisit, Bind.bind, Except.bind, Pure.pure, Except.pure]
    · simp [whileVisit, visitNode, whileBody, whileExec, hcond, hb ▸ hcap,
        transitionOfVisit, Bind.bind, Except.bind, Pure.pure, Except.pure]

/-- C6 witness: a concrete always-raising condition at a concrete state. -/
theorem expression_errors_swallowed_witness :
    ((WhileCfg.mk (fun _ => .error "boom") 100).condition =
        (fun _ => Except.error "boom") ∧
      pyGeInt (((lookupE (whilePrep "w1" Ctx.empty).2 "iteration")).getD .null)
        (WhileCfg.mk (fun _ => .error "boom") 100).maxIterations = .ok false) ∧
    (ifElseVisit "W" "w1" ⟨fun _ => .error "boom", ""⟩ Ctx.empty =
      .ok (basePost "W" "w1" (.bool false) Ctx.empty, some "false",
        [Ev.node_end "w1" "W",
         Ev.state_update (basePost "W" "w1" (.bool false) Ctx.empty).results
           Ctx.empty.memory "w1"]) ∧
    transitionOfVisit
      (whileVisit "W" "w1" ⟨fun _ => .error "boom", 100⟩ Ctx.empty) =
      some (some "done")) :=
  ⟨⟨rfl, rfl⟩,
    expression_errors_swallowed "boom" "" "W" "w1" Ctx.empty
      ⟨fun _ => .error "boom", 100⟩ false rfl rfl⟩

/-- Helper: overwriting an existing key in place makes it the looked-up
value. -/
theorem lookupE_map_overwrite (k : String) (v : Val) :
    ∀ m : Entries, hasKey m k = true →
      lookupE (m.map (fun p => if p.1 == k then (p.1, v) else p)) k = some v := by
  intro m
  induction m with
  | nil => simp [hasKey]
  | cons a t ih =>
    intro h
    by_cases ha : a.1 = k
    · simp [lookupE, ha, List.find?_cons_of_pos]
    · have ht : hasKey t k = true := by
        simp [hasKey, ha] at h ⊢
        simpa [hasKey] using h
      have := ih ht
      simpa [lookupE, ha, List.find?_cons_of_neg] using this

/-- Helper: appending a fresh key makes it the looked-up value. -/
theorem lookupE_append_new (k : String) (v : Val) :
    ∀ m : Entries, hasKey m k = false →
      lookupE (m ++ [(k, v)]) k = some v := by
  intro m
  induction m with
  | nil => simp [lookupE]
  | cons a t ih =>
    intro h
    simp [hasKey] at h
    have := ih (by simp [hasKey]; exact h.2)
    simpa [lookupE, h.1, List.find?_cons_of_neg] using this

/-- Helper: after `setKey` the key holds the assigned value. -/
theorem lookupE_setKey_self (m : Entries) (k : String) (v : Val) :
    lookupE (setKey m k v) k = some v := by
  unfold setKey
  by_cases h : hasKey m k = true
  · simp only [h, if_true]
    exact lookupE_map_overwrite k v m h
  · simp only [Bool.not_eq_true] at h
    simp only [h, Bool.false_eq_true, if_false]
    exact lookupE_append_new k v m h

/-- Helper: registering a fresh request id and purging it restores the
pending-request registry. -/
theorem register_purge (pending : List String) (r : String) (h : r ∉ pending) :
    (pending ++ [r]).filter (fun x => x != r) = pending := by
  rw [List.filter_append]
  simp
  intro a ha
  exact ne_of_mem_of_not_mem ha h

/-- C8: a HumanInput visit resumed with a payload before the timeout removes
its registry entry, commits the payload, merges its keys into memory when
it is a record, and routes `approved`/`rejected` by the payload's
`approved` field — defaulting to approved when the field is absent or the
payload is not a record (second conjunct); an unresumed visit past the
timeout purges the registry entry, commits the `"Timeout"` error outcome
without raising, and routes neither `approved` nor `rejected` (the `None`
transition). In particular `{"approved": true, "comment": "ok"}` routes
`approved` with `memory.comment == "ok"` (first and last conjuncts). -/
theorem human_input_routing (name id reqId : String) (pending : List String)
    (ctx : Ctx) (o : Entries) (payload : Val)
    (hfresh : reqId ∉ pending) (hnotobj : ∀ fs, payload ≠ Val.obj fs) :
    humanStep name id reqId (some (Val.obj o)) pending ctx =
      (pending,
        basePost name id (Val.obj o) { ctx with memory := updMap ctx.memory o },
        some (if pyTruthy ((lookupE o "approved").getD (.bool true))
          then "approved" else "rejected")) ∧
    humanStep name id reqId (some payload) pending ctx =
      (pending, basePost name id payload ctx, some "approved") ∧
    humanStep name id reqId none pending ctx =
      (pending, basePost name id (.str "Timeout") ctx, none) ∧
    lookupE (updMap ctx.memory
        [("approved", Val.bool true), ("comment", Val.str "ok")]) "comment" =
      some (Val.str "ok") := by
  refine ⟨?_, ?_, ?_, ?_⟩
  · simp [humanStep, humanExec, register_purge pending reqId hfresh]
  · cases payload with
    | obj fs => exact absurd rfl (hnotobj fs)
    | str s => simp [humanStep, humanExec, register_purge pending reqId hfresh, pyTruthy]
    | num n => simp [humanStep, humanExec, register_purge pending reqId hfresh, pyTruthy]
    | bool b => simp [humanStep, humanExec, register_purge pending reqId hfresh, pyTruthy]
    | null => simp [humanStep, humanExec, register_purge pending reqId hfresh, pyTruthy]
    | arr xs => simp [humanStep, humanExec, register_purge pending reqId hfresh, pyTruthy]
  · simp [humanStep, humanExec, register_purge pending reqId hfresh]
  · simp only [updMap, List.foldl]
    exact lookupE_setKey_self _ "comment" (Val.str "ok")

/-- C8 witness: the spec's concrete resume payload and a concrete timeout. -/
theorem human_input_routing_witness :
    (("r1" : String) ∉ ([] : List String) ∧
      (∀ fs, Val.str "hi" ≠ Val.obj fs)) ∧
    (humanStep "H" "h1" "r1"
        (some (Val.obj [("approved", Val.bool true), ("comment", Val.str "ok")]))
        [] Ctx.empty =
      ([],
        basePost "H" "h1"
          (Val.obj [("approved", Val.bool true), ("comment", Val.str "ok")])
          { Ctx.empty with
            memory := updMap Ctx.empty.memory
              [("approved", Val.bool true), ("comment", Val.str "ok")] },
        some (if pyTruthy ((lookupE
            [("approved", Val.bool true), ("comment", Val.str "ok")]
            "approved").getD (.bool true)) then "approved" else "rejected")) ∧
    humanStep "H" "h1" "r1" (some (Val.str "hi")) [] Ctx.empty =
      ([], basePost "H" "h1" (Val.str "hi") Ctx.empty, some "approved") ∧
    humanStep "H" "h1" "r1" none [] Ctx.empty =
      ([], basePost "H" "h1" (.str "Timeout") Ctx.empty, none) ∧
    lookupE (updMap Ctx.empty.memory
        [("approved", Val.bool true), ("comment", Val.str "ok")]) "comment" =
      some (Val.str "ok")) :=
  ⟨⟨by decide, fun fs h => Val.noConfusion h⟩,
    human_input_routing "H" "h1" "r1" [] Ctx.empty
      [("approved", Val.bool true), ("comment", Val.str "ok")] (Val.str "hi")
      (by decide) (fun fs h => Val.noConfusion h)⟩

/-- C10: every failure mode of a SubWorkflow visit — empty configured name,
missing workflow file, a load (read/parse) exception, a sub-workflow
compile failure, and an exception raised by the sub-run — is swallowed:
the visit returns normally, commits an error-description string beginning
with `"Error"`, and routes the `default` transition (`None`), leaving the
run alive. -/
theorem subworkflow_swallows_failures
    (name id : String) (registered : String → Bool) (bodyOf : NodeConfig → Body)
    (fuel : Nat) (env : SubEnv) (cfg : SubCfg) (ctx : Ctx) (e : String)
    (wf : Workflow) (g : CGraph) :
    (cfg.workflowName = "" →
      subVisit name id registered bodyOf fuel env cfg ctx =
        some ⟨.str ("Error" ++ ": No workflow name provided"),
          basePost name id (.str ("Error" ++ ": No workflow name provided")) ctx,
          none⟩) ∧
    (cfg.workflowName ≠ "" → env.fileExists = false →
      subVisit name id registered bodyOf fuel env cfg ctx =
        some ⟨.str ("Error" ++ (": Workflow '" ++ cfg.workflowName ++
            ("' not found at backend/workflows/" ++ cfg.workflowName ++ ".json"))),
          basePost name id (.str ("Error" ++ (": Workflow '" ++ cfg.workflowName ++
            ("' not found at backend/workflows/" ++ cfg.workflowName ++ ".json")))) ctx,
          none⟩) ∧
    (cfg.workflowName ≠ "" → env.fileExists = true → env.load = .error e →
      subVisit name id registered bodyOf fuel env cfg ctx =
        some ⟨.str ("Error" ++ (" executing sub-workflow: " ++ e)),
          basePost name id (.str ("Error" ++ (" executing sub-workflow: " ++ e))) ctx,
          none⟩) ∧
    (cfg.workflowName ≠ "" → env.fileExists = true → env.load = .ok wf →
      build_graph registered wf = .error e →
      subVisit name id registered bodyOf fuel env cfg ctx =
        some ⟨.str ("Error" ++ (" building sub-workflow: " ++ e)),
          basePost name id (.str ("Error" ++ (" building sub-workflow: " ++ e))) ctx,
          none⟩) ∧
    (cfg.workflowName ≠ "" → env.fileExists = true → env.load = .ok wf →
      build_graph registered wf = .ok g →
      (walkList bodyOf g fuel g.roots
        ⟨[], if cfg.passMemory then ctx.memory else [], []⟩).outcome = .failed e →
      subVisit name id registered bodyOf fuel env cfg ctx =
        some ⟨.str ("Error" ++ (" executing sub-workflow: " ++ e)),
          basePost name id (.str ("Error" ++ (" executing sub-workflow: " ++ e))) ctx,
          none⟩) := by
  have hs1 : "Error" ++ ": No workflow name provided" =
      "Error: No workflow name provided" := rfl
  have hs2 : ∀ n : String,
      "Error: Workflow '" ++ n ++ "' not found at backend/workflows/" ++ n ++ ".json"
        = "Error" ++ (": Workflow '" ++ n ++
            ("' not found at backend/workflows/" ++ n ++ ".json")) := by
    intro n
    have h : "Error" ++ ": Workflow '" = "Error: Workflow '" := rfl
    simp [← String.append_assoc, h]
  have hs3 : ∀ t : String, "Error executing sub-workflow: " ++ t =
      "Error" ++ (" executing sub-workflow: " ++ t) := by
    intro t
    rw [← String.append_assoc]
    have h : "Error" ++ " executing sub-workflow: " =
      "Error executing sub-workflow: " := rfl
    rw [h]
  have hs4 : ∀ t : String, "Error building sub-workflow: " ++ t =
      "Error" ++ (" building sub-workflow: " ++ t) := by
    intro t
    rw [← String.append_assoc]
    have h : "Error" ++ " building sub-workflow: " =
      "Error building sub-workflow: " := rfl
    rw [h]
  refine ⟨?_, ?_, ?_, ?_, ?_⟩
  · intro h1
    simp [subVisit, subExec, h1, hs1]
  · intro h1 h2
    simp [subVisit, subExec, h1, h2, hs2 cfg.workflowName]
  · intro h1 h2 h3
    simp [subVisit, subExec, h1, h2, h3, hs3 e]
  · intro h1 h2 h3 h4
    simp [subVisit, subExec, h1, h2, h3, h4, hs4 e]
  · intro h1 h2 h3 h4 h5
    simp [subVisit, subExec, h1, h2, h3, h4, h5, hs3 e]

/-- C10 witness: a raising sub-run over a concrete one-node sub-workflow. -/
theorem subworkflow_swallows_failures_witness :
    ((SubCfg.mk "sub" true).workflowName ≠ "" ∧
      (SubEnv.mk true (.ok ⟨[nodeC "n1" "" "leaf"], []⟩)).fileExists = true ∧
      (SubEnv.mk true (.ok ⟨[nodeC "n1" "" "leaf"], []⟩)).load =
        .ok ⟨[nodeC "n1" "" "leaf"], []⟩ ∧
      build_graph regLeaf ⟨[nodeC "n1" "" "leaf"], []⟩ =
        .ok ⟨[⟨nodeC "n1" "" "leaf", "n1", []⟩], [], ["n1"]⟩ ∧
      (walkList (fun _ => raiseBody "boom")
          ⟨[⟨nodeC "n1" "" "leaf", "n1", []⟩], [], ["n1"]⟩ 5
          (CGraph.mk [⟨nodeC "n1" "" "leaf", "n1", []⟩] [] ["n1"]).roots
          ⟨[], if (SubCfg.mk "sub" true).passMemory then Ctx.empty.memory else [],
            []⟩).outcome = .failed "boom") ∧
    ((SubCfg.mk "sub" true).workflowName ≠ "" →
      (SubEnv.mk true (.ok ⟨[nodeC "n1" "" "leaf"], []⟩)).fileExists = true →
      (SubEnv.mk true (.ok ⟨[nodeC "n1" "" "leaf"], []⟩)).load =
        .ok ⟨[nodeC "n1" "" "leaf"], []⟩ →
      build_graph regLeaf ⟨[nodeC "n1" "" "leaf"], []⟩ =
        .ok ⟨[⟨nodeC "n1" "" "leaf", "n1", []⟩], [], ["n1"]⟩ →
      (walkList (fun _ => raiseBody "boom")
          ⟨[⟨nodeC "n1" "" "leaf", "n1", []⟩], [], ["n1"]⟩ 5
          (CGraph.mk [⟨nodeC "n1" "" "leaf", "n1", []⟩] [] ["n1"]).roots
          ⟨[], if (SubCfg.mk "sub" true).passMemory then Ctx.empty.memory else [],
            []⟩).outcome = .failed "boom" →
      subVisit "S" "s1" regLeaf (fun _ => raiseBody "boom") 5
          (SubEnv.mk true (.ok ⟨[nodeC "n1" "" "leaf"], []⟩))
          (SubCfg.mk "sub" true) Ctx.empty =
        some ⟨.str ("Error" ++ (" executing sub-workflow: " ++ "boom")),
          basePost "S" "s1"
            (.str ("Error" ++ (" executing sub-workflow: " ++ "boom"))) Ctx.empty,
          none⟩) :=
  ⟨⟨by decide, rfl, rfl, rfl, rfl⟩,
    (subworkflow_swallows_failures "S" "s1" regLeaf (fun _ => raiseBody "boom")
      5 (SubEnv.mk true (.ok ⟨[nodeC "n1" "" "leaf"], []⟩))
      (SubCfg.mk "sub" true) Ctx.empty "boom" ⟨[nodeC "n1" "" "leaf"], []⟩
      ⟨[⟨nodeC "n1" "" "leaf", "n1", []⟩], [], ["n1"]⟩).2.2.2.2⟩

/-- C3 counterexample: a workflow whose single node has in-degree 0 but an
unregistered type fails compilation instead of compiling with that node as
root — `build_graph` skips unknown types before computing roots, so the
claim's root guarantee does not hold for arbitrary workflows. -/
theorem indegree_zero_unregistered_rejected :
    inDeg ⟨[nodeC "n1" "" "ghost"], []⟩ "n1" = 0 ∧
    build_graph regLeaf ⟨[nodeC "n1" "" "ghost"], []⟩ = .error noStartMsg :=
  ⟨rfl, rfl⟩

/-- C3 amended: a workflow in which every node has nonzero in-degree over the
edge set (cyclic or empty included) fails compilation with the
no-start-node error, and the failure surfaces from the run entry point
with no node lifecycle executed and no event emitted; a workflow whose
node types are all registered and that has at least one in-degree-0 node
compiles with exactly the in-degree-0 nodes (in declaration order) as
roots. -/
theorem roots_are_indegree_zero_nodes (registered : String → Bool)
    (bodyOf : NodeConfig → Body) (fuel : Nat) (wf₁ wf₂ : Workflow)
    (h1 : ∀ n ∈ wf₁.nodes, 0 < inDeg wf₁ n.id)
    (hreg : ∀ n ∈ wf₂.nodes, registered n.type = true)
    (hzero : ∃ n ∈ wf₂.nodes, inDeg wf₂ n.id = 0) :
    build_graph registered wf₁ = .error noStartMsg ∧
    run_workflow registered bodyOf fuel wf₁ = some ⟨.error noStartMsg, [], []⟩ ∧
    rootsOf (build_graph registered wf₂) =
      some ((wf₂.nodes.filter (fun n => inDeg wf₂ n.id == 0)).map
        (fun n => n.id)) := by
  have hempty : (instNodes registered wf₁).filter
      (fun n => inDeg wf₁ n.id == 0) = [] := by
    rw [List.filter_eq_nil_iff]
    intro n hn
    have hmem : n ∈ wf₁.nodes := List.mem_of_mem_filter hn
    have hp := h1 n hmem
    simp only [beq_iff_eq]
    omega
  have herr : build_graph registered wf₁ = .error noStartMsg := by
    simp [build_graph, hempty]
  refine ⟨herr, ?_, ?_⟩
  · simp [run_workflow, herr]
  · have hall : instNodes registered wf₂ = wf₂.nodes :=
      List.filter_eq_self.mpr (fun n hn => hreg n hn)
    obtain ⟨n, hn, hdeg⟩ := hzero
    have hne : (wf₂.nodes.filter (fun n => inDeg wf₂ n.id == 0)) ≠ [] := by
      intro hnil
      have : n ∈ wf₂.nodes.filter (fun n => inDeg wf₂ n.id == 0) :=
        List.mem_filter.mpr ⟨hn, by simp [hdeg]⟩
      rw [hnil] at this
      exact List.not_mem_nil n this
    have hfalse : ((wf₂.nodes.filter (fun n => inDeg wf₂ n.id == 0)).map
        (fun n => n.id)).isEmpty = false := by
      rw [List.isEmpty_eq_false]
      simpa using hne
    simp [build_graph, hall, hfalse, rootsOf]

/-- C3 witness: a two-node cycle is rejected; a two-node chain with every
type registered has exactly its in-degree-0 node as root. -/
theorem roots_are_indegree_zero_nodes_witness :
    ((∀ n ∈ (Workflow.mk [nodeC "a" "" "leaf", nodeC "b" "" "leaf"]
        [edgeC "a" "b", edgeC "b" "a"]).nodes,
      0 < inDeg (Workflow.mk [nodeC "a" "" "leaf", nodeC "b" "" "leaf"]
        [edgeC "a" "b", edgeC "b" "a"]) n.id) ∧
     (∀ n ∈ (Workflow.mk [nodeC "a" "" "leaf", nodeC "b" "" "leaf"]
        [edgeC "a" "b"]).nodes, regLeaf n.type = true) ∧
     (∃ n ∈ (Workflow.mk [nodeC "a" "" "leaf", nodeC "b" "" "leaf"]
        [edgeC "a" "b"]).nodes,
      inDeg (Workflow.mk [nodeC "a" "" "leaf", nodeC "b" "" "leaf"]
        [edgeC "a" "b"]) n.id = 0)) ∧
    (build_graph regLeaf (Workflow.mk [nodeC "a" "" "leaf", nodeC "b" "" "leaf"]
        [edgeC "a" "b", edgeC "b" "a"]) = .error noStartMsg ∧
     run_workflow regLeaf (fun _ => constBody (.num 0)) 5
        (Workflow.mk [nodeC "a" "" "leaf", nodeC "b" "" "leaf"]
          [edgeC "a" "b", edgeC "b" "a"]) = some ⟨.error noStartMsg, [], []⟩ ∧
     rootsOf (build_graph regLeaf
        (Workflow.mk [nodeC "a" "" "leaf", nodeC "b" "" "leaf"] [edgeC "a" "b"])) =
      some (((Workflow.mk [nodeC "a" "" "leaf", nodeC "b" "" "leaf"]
          [edgeC "a" "b"]).nodes.filter
        (fun n => inDeg (Workflow.mk [nodeC "a" "" "leaf", nodeC "b" "" "leaf"]
          [edgeC "a" "b"]) n.id == 0)).map (fun n => n.id))) :=
  ⟨⟨by decide, by decide, by decide⟩,
    roots_are_indegree_zero_nodes regLeaf (fun _ => constBody (.num 0)) 5
      (Workflow.mk [nodeC "a" "" "leaf", nodeC "b" "" "leaf"]
        [edgeC "a" "b", edgeC "b" "a"])
      (Workflow.mk [nodeC "a" "" "leaf", nodeC "b" "" "leaf"] [edgeC "a" "b"])
      (by decide) (by decide) (by decide)⟩

/-- C1 counterexample: a single registered node whose label `"A"` differs
from its id `"n1"` runs once but leaves TWO results entries — one keyed by
display name and one by id — not exactly one as claimed. -/
theorem single_node_two_result_entries :
    run_workflow regLeaf (fun _ => constBody (.str "v")) 5
        ⟨[nodeC "n1" "A" "leaf"], []⟩ =
      some ⟨.ok (.completed [("A", .str "v"), ("n1", .str "v")]),
        [Ev.node_end "n1" "A",
         Ev.state_update [("A", .str "v"), ("n1", .str "v")] [] "n1"],
        ["n1"]⟩ ∧
    [("A", Val.str "v"), ("n1", Val.str "v")].length = 2 :=
  ⟨rfl, rfl⟩

/-- C1 amended: a one-node, no-edge workflow of a registered type compiles
with that node as the single root; running it executes the node exactly
once, and the results map afterwards holds the node's value under its
display name and its id — exactly one entry when they coincide (label
empty or equal to the id), exactly two otherwise. -/
theorem single_node_workflow_runs_once (registered : String → Bool)
    (bodyOf : NodeConfig → Body) (cfg : NodeConfig) (fuel : Nat) (v : Val)
    (ctx' : Ctx) (t : Option String)
    (hreg : registered cfg.type = true)
    (hbody : bodyOf cfg Ctx.empty = .ok (v, ctx', t))
    (hres : ctx'.results = [])
    (hid : cfg.id ≠ "") :
    rootsOf (build_graph registered ⟨[cfg], []⟩) = some [cfg.id] ∧
    run_workflow registered bodyOf (fuel + 1) ⟨[cfg], []⟩ =
      some ⟨.ok (.completed (writeResult (writeResult [] (displayName cfg) v)
          cfg.id v)),
        [Ev.node_end cfg.id (displayName cfg),
         Ev.state_update (writeResult (writeResult [] (displayName cfg) v)
           cfg.id v) ctx'.memory cfg.id],
        [cfg.id]⟩ ∧
    (writeResult (writeResult [] (displayName cfg) v) cfg.id v).length =
      (if displayName cfg = cfg.id then 1 else 2) := by
  have hbuild : build_graph registered ⟨[cfg], []⟩ =
      .ok ⟨[⟨cfg, displayName cfg, []⟩], [], [cfg.id]⟩ := by
    simp [build_graph, instNodes, connectedEdges, inputMappingFor, inDeg, hreg]
  refine ⟨by simp [rootsOf, hbuild], ?_, ?_⟩
  · simp only [run_workflow, hbuild]
    simp [walkList, walkFrom, hbody, lookupSucc, basePost, hid, hres]
  · by_cases h : displayName cfg = cfg.id
    · simp [writeResult, eraseKey, h]
    · simp [writeResult, eraseKey, Ne.symm h, h]

/-- C1 witness: the one-node workflow evaluated concretely (label equal to
the id, giving the single-entry case). -/
theorem single_node_workflow_runs_once_witness :
    (regLeaf (nodeC "n1" "" "leaf").type = true ∧
      (fun _ => constBody (.str "v")) (nodeC "n1" "" "leaf") Ctx.empty =
        .ok (.str "v", Ctx.empty, none) ∧
      Ctx.empty.results = ([] : Entries) ∧
      (nodeC "n1" "" "leaf").id ≠ "") ∧
    (rootsOf (build_graph regLeaf ⟨[nodeC "n1" "" "leaf"], []⟩) = some ["n1"] ∧
    run_workflow regLeaf (fun _ => constBody (.str "v")) (4 + 1)
        ⟨[nodeC "n1" "" "leaf"], []⟩ =
      some ⟨.ok (.completed (writeResult
          (writeResult [] (displayName (nodeC "n1" "" "leaf")) (.str "v"))
          (nodeC "n1" "" "leaf").id (.str "v"))),
        [Ev.node_end (nodeC "n1" "" "leaf").id (displayName (nodeC "n1" "" "leaf")),
         Ev.state_update (writeResult
           (writeResult [] (displayName (nodeC "n1" "" "leaf")) (.str "v"))
           (nodeC "n1" "" "leaf").id (.str "v")) Ctx.empty.memory
           (nodeC "n1" "" "leaf").id],
        [(nodeC "n1" "" "leaf").id]⟩ ∧
    (writeResult (writeResult [] (displayName (nodeC "n1" "" "leaf")) (.str "v"))
        (nodeC "n1" "" "leaf").id (.str "v")).length =
      (if displayName (nodeC "n1" "" "leaf") = (nodeC "n1" "" "leaf").id
        then 1 else 2)) :=
  ⟨⟨rfl, rfl, rfl, by decide⟩,
    single_node_workflow_runs_once regLeaf (fun _ => constBody (.str "v"))
      (nodeC "n1" "" "leaf") 4 (.str "v") Ctx.empty none rfl rfl rfl (by decide)⟩

/-- C7 counterexample: the empty workflow makes the run entry point raise the
compile error (an `Except.error`, engine.py:127-128) instead of returning
the structured `{status: "error"}` value the claim promises for every
accepted workflow. -/
theorem run_raises_on_compile_error :
    run_workflow regLeaf (fun _ => constBody (.num 0)) 5 ⟨[], []⟩ =
      some ⟨.error noStartMsg, [], []⟩ :=
  rfl

/-- C7 amended: a completed walk returns `{status: "completed", results}` and
any exception raised inside the walk is caught and returned as
`{status: "error", error}`; a compile failure, however, is re-raised from
the run entry point (not returned structurally), though still before any
node executes or any event is emitted. -/
theorem run_returns_structured_outcome (registered : String → Bool)
    (bodyOf : NodeConfig → Body) (fuel : Nat) (wf wfF wfE : Workflow)
    (g gF : CGraph) (eE e : String)
    (hok : build_graph registered wf = .ok g)
    (hokF : build_graph registered wfF = .ok gF)
    (hE : build_graph registered wfE = .error eE) :
    ((walkList bodyOf g fuel g.roots Ctx.empty).outcome = .ok →
      run_workflow registered bodyOf fuel wf =
        some ⟨.ok (.completed (walkList bodyOf g fuel g.roots Ctx.empty).ctx.results),
          (walkList bodyOf g fuel g.roots Ctx.empty).trace,
          (walkList bodyOf g fuel g.roots Ctx.empty).execs⟩) ∧
    ((walkList bodyOf gF fuel gF.roots Ctx.empty).outcome = .failed e →
      run_workflow registered bodyOf fuel wfF =
        some ⟨.ok (.failed e),
          (walkList bodyOf gF fuel gF.roots Ctx.empty).trace,
          (walkList bodyOf gF fuel gF.roots Ctx.empty).execs⟩) ∧
    run_workflow registered bodyOf fuel wfE = some ⟨.error eE, [], []⟩ := by
  refine ⟨?_, ?_, ?_⟩
  · intro h
    simp [run_workflow, hok, h]
  · intro h
    simp [run_workflow, hokF, h]
  · simp [run_workflow, hE]

/-- C7 witness: a completing run, a run whose node raises, and the raising
empty-workflow compile, all concrete. -/
theorem run_returns_structured_outcome_witness :
    (build_graph (fun t => t == "leaf" || t == "boom")
        ⟨[nodeC "n1" "" "leaf"], []⟩ =
        .ok ⟨[⟨nodeC "n1" "" "leaf", "n1", []⟩], [], ["n1"]⟩ ∧
      build_graph (fun t => t == "leaf" || t == "boom")
        ⟨[nodeC "f1" "" "boom"], []⟩ =
        .ok ⟨[⟨nodeC "f1" "" "boom", "f1", []⟩], [], ["f1"]⟩ ∧
      build_graph (fun t => t == "leaf" || t == "boom") ⟨[], []⟩ =
        .error noStartMsg ∧
      (walkList (fun c => if c.type == "boom" then raiseBody "boom"
          else constBody (.num 1))
        ⟨[⟨nodeC "n1" "" "leaf", "n1", []⟩], [], ["n1"]⟩ 5 ["n1"]
        Ctx.empty).outcome = .ok ∧
      (walkList (fun c => if c.type == "boom" then raiseBody "boom"
          else constBody (.num 1))
        ⟨[⟨nodeC "f1" "" "boom", "f1", []⟩], [], ["f1"]⟩ 5 ["f1"]
        Ctx.empty).outcome = .failed "boom") ∧
    (run_workflow (fun t => t == "leaf" || t == "boom")
        (fun c => if c.type == "boom" then raiseBody "boom"
          else constBody (.num 1)) 5 ⟨[nodeC "n1" "" "leaf"], []⟩ =
      some ⟨.ok (.completed [("n1", .num 1)]),
        [Ev.node_end "n1" "n1", Ev.state_update [("n1", .num 1)] [] "n1"],
        ["n1"]⟩ ∧
    run_workflow (fun t => t == "leaf" || t == "boom")
        (fun c => if c.type == "boom" then raiseBody "boom"
          else constBody (.num 1)) 5 ⟨[nodeC "f1" "" "boom"], []⟩ =
      some ⟨.ok (.failed "boom"), [], ["f1"]⟩ ∧
    run_workflow (fun t => t == "leaf" || t == "boom")
        (fun c => if c.type == "boom" then raiseBody "boom"
          else constBody (.num 1)) 5 ⟨[], []⟩ =
      some ⟨.error noStartMsg, [], []⟩) := by
  refine ⟨⟨rfl, rfl, rfl, rfl, rfl⟩, ?_, ?_, ?_⟩
  · exact (run_returns_structured_outcome (fun t => t == "leaf" || t == "boom")
      (fun c => if c.type == "boom" then raiseBody "boom" else constBody (.num 1))
      5 ⟨[nodeC "n1" "" "leaf"], []⟩ ⟨[nodeC "f1" "" "boom"], []⟩ ⟨[], []⟩
      ⟨[⟨nodeC "n1" "" "leaf", "n1", []⟩], [], ["n1"]⟩
      ⟨[⟨nodeC "f1" "" "boom", "f1", []⟩], [], ["f1"]⟩
      noStartMsg "boom" rfl rfl rfl).1 rfl
  · exact (run_returns_structured_outcome (fun t => t == "leaf" || t == "boom")
      (fun c => if c.type == "boom" then raiseBody "boom" else constBody (.num 1))
      5 ⟨[nodeC "n1" "" "leaf"], []⟩ ⟨[nodeC "f1" "" "boom"], []⟩ ⟨[], []⟩
      ⟨[⟨nodeC "n1" "" "leaf", "n1", []⟩], [], ["n1"]⟩
      ⟨[⟨nodeC "f1" "" "boom", "f1", []⟩], [], ["f1"]⟩
      noStartMsg "boom" rfl rfl rfl).2.1 rfl
  · exact (run_returns_structured_outcome (fun t => t == "leaf" || t == "boom")
      (fun c => if c.type == "boom" then raiseBody "boom" else constBody (.num 1))
      5 ⟨[nodeC "n1" "" "leaf"], []⟩ ⟨[nodeC "f1" "" "boom"], []⟩ ⟨[], []⟩
      ⟨[⟨nodeC "n1" "" "leaf", "n1", []⟩], [], ["n1"]⟩
      ⟨[⟨nodeC "f1" "" "boom", "f1", []⟩], [], ["f1"]⟩
      noStartMsg "boom" rfl rfl rfl).2.2

/-- Helper: pair discipline is preserved by concatenation. -/
theorem wellPaired_append (a b : List Ev) (ha : wellPaired a = true)
    (hb : wellPaired b = true) : wellPaired (a ++ b) = true := by
  induction a using wellPaired.induct with
  | case1 => simpa using hb
  | case2 i nm R M i2 rest ih =>
    simp [wellPaired] at ha ⊢
    exact ⟨ha.1, ih ha.2⟩
  | case3 l h1 h2 =>
    rw [wellPaired] at ha
    · exact absurd ha (by simp)
    · exact h1
    · exact h2

/-- Helper: freedom from start/error events is preserved by concatenation. -/
theorem all_noStart_append (a b : List Ev)
    (ha : a.all (fun e => ! e.isStartOrError) = true)
    (hb : b.all (fun e => ! e.isStartOrError) = true) :
    (a ++ b).all (fun e => ! e.isStartOrError) = true := by
  simp only [List.all_append, ha, hb, Bool.and_self]

/-- Helper: every trace of the walk keeps the event discipline: only
`node_end` immediately followed by the matching `state_update`, never a
`node_start` or `node_error`. -/
theorem walkFrom_trace_events (bodyOf : NodeConfig → Body) (g : CGraph) :
    ∀ (fuel : Nat) (cur : Succ) (ctx : Ctx),
      (walkFrom bodyOf g fuel cur ctx).trace.all
        (fun e => ! e.isStartOrError) = true ∧
      wellPaired (walkFrom bodyOf g fuel cur ctx).trace = true := by
  intro fuel
  induction fuel with
  | zero => intro cur ctx; simp [walkFrom, wellPaired]
  | succ fuel ih =>
    intro cur ctx
    match cur with
    | .one id =>
      cases hfind : g.nodes.find? (fun n => n.cfg.id == id) with
      | none => simp [walkFrom, hfind, wellPaired]
      | some n =>
        cases hbody : bodyOf n.cfg ctx with
        | error e => simp [walkFrom, hfind, hbody, wellPaired]
        | ok res =>
          obtain ⟨v, ctx1, t⟩ := res
          cases hsucc : lookupSucc g n.cfg.id (t.getD "default") with
          | none =>
            simp [walkFrom, hfind, hbody, hsucc, wellPaired, Ev.isStartOrError]
          | some s =>
            have h := ih s (basePost n.name n.cfg.id v ctx1)
            constructor
            · simp only [walkFrom, hfind, hbody, hsucc]
              exact all_noStart_append _ _ (by simp [Ev.isStartOrError]) h.1
            · simp only [walkFrom, hfind, hbody, hsucc, List.cons_append,
                List.nil_append]
              simp [wellPaired, h.2]
    | .fanout [] => simp [walkFrom, wellPaired]
    | .fanout (id :: rest) =>
      have h1 := ih (.one id) ctx
      cases hout : (walkFrom bodyOf g fuel (.one id) ctx).outcome with
      | ok =>
        have h2 := ih (.fanout rest) (walkFrom bodyOf g fuel (.one id) ctx).ctx
        constructor
        · simp only [walkFrom, hout]
          exact all_noStart_append _ _ h1.1 h2.1
        · simp only [walkFrom, hout]
          exact wellPaired_append _ _ h1.2 h2.2
      | failed e =>
        constructor
        · simp only [walkFrom, hout]
          exact h1.1
        · simp only [walkFrom, hout]
          exact h1.2
      | fuelOut =>
        constructor
        · simp only [walkFrom, hout]
          exact h1.1
        · simp only [walkFrom, hout]
          exact h1.2

/-- Helper: the root walk keeps the event discipline. -/
theorem walkList_trace_events (bodyOf : NodeConfig → Body) (g : CGraph)
    (fuel : Nat) :
    ∀ (ids : List String) (ctx : Ctx),
      (walkList bodyOf g fuel ids ctx).trace.all
        (fun e => ! e.isStartOrError) = true ∧
      wellPaired (walkList bodyOf g fuel ids ctx).trace = true := by
  intro ids
  induction ids with
  | nil => intro ctx; simp [walkList, wellPaired]
  | cons id rest ih =>
    intro ctx
    rw [walkList]
    have h1 := walkFrom_trace_events bodyOf g fuel (.one id) ctx
    cases hout : (walkFrom bodyOf g fuel (.one id) ctx).outcome with
    | ok =>
      have h2 := ih (walkFrom bodyOf g fuel (.one id) ctx).ctx
      simp only [hout]
      constructor
      · simp [List.all_append, h1.1, h2.1]
      · exact wellPaired_append _ _ h1.2 h2.2
    | failed e => simpa [hout] using h1
    | fuelOut => simpa [hout] using h1

/-- C9 counterexample: a concrete run with the Event Sink attached executes
its node (the log shows it) yet its trace carries no `node_start` and is
exactly the `node_end`/`state_update` pair — the claimed `node_start`
before the lifecycle is never emitted, because it lives in the `run()`
wrapper the PocketFlow orchestration bypasses (base.py:151). -/
theorem no_node_start_emitted :
    run_workflow regLeaf (fun _ => constBody (.num 1)) 5
        ⟨[nodeC "n2" "" "leaf"], []⟩ =
      some ⟨.ok (.completed [("n2", .num 1)]),
        [Ev.node_end "n2" "n2", Ev.state_update [("n2", .num 1)] [] "n2"],
        ["n2"]⟩ ∧
    ([Ev.node_end "n2" "n2",
      Ev.state_update [("n2", .num 1)] [] "n2"].all
        (fun e => ! e.isStartOrError)) = true :=
  ⟨rfl, rfl⟩

/-- C9 amended: in every run, each executed node's lifecycle is followed by a
`node_end {nodeId, nodeName}` event immediately followed by a
`state_update` snapshot of the serialized results and memory for that same
node; `node_start` and `node_error` are never emitted during orchestration
(their emission sites sit in the `run()` wrapper, which the flow engine
bypasses), so no event precedes a node's lifecycle and an uncaught error
re-raises without a `node_error` event. -/
theorem run_trace_event_discipline (registered : String → Bool)
    (bodyOf : NodeConfig → Body) (fuel : Nat) (wf : Workflow) (w : RunOut)
    (hrun : run_workflow registered bodyOf fuel wf = some w) :
    w.trace.all (fun e => ! e.isStartOrError) = true ∧
    wellPaired w.trace = true := by
  unfold run_workflow at hrun
  cases hbuild : build_graph registered wf with
  | error e =>
    rw [hbuild] at hrun
    simp at hrun
    rw [← hrun]
    simp [wellPaired]
  | ok g =>
    rw [hbuild] at hrun
    have h := walkList_trace_events bodyOf g fuel g.roots Ctx.empty
    cases hout : (walkList bodyOf g fuel g.roots Ctx.empty).outcome with
    | ok =>
      simp only [hout] at hrun
      simp at hrun
      rw [← hrun]
      exact h
    | failed e =>
      simp only [hout] at hrun
      simp at hrun
      rw [← hrun]
      exact h
    | fuelOut =>
      simp only [hout] at hrun
      simp at hrun

/-- C9 witness: the discipline evaluated on a concrete completed run. -/
theorem run_trace_event_discipline_witness :
    (run_workflow regLeaf (fun _ => constBody (.num 2)) 5
        ⟨[nodeC "n3" "" "leaf"], []⟩ =
      some ⟨.ok (.completed [("n3", .num 2)]),
        [Ev.node_end "n3" "n3", Ev.state_update [("n3", .num 2)] [] "n3"],
        ["n3"]⟩) ∧
    (RunOut.mk (.ok (.completed [("n3", .num 2)]))
        [Ev.node_end "n3" "n3", Ev.state_update [("n3", .num 2)] [] "n3"]
        ["n3"]).trace.all (fun e => ! e.isStartOrError) = true ∧
    wellPaired (RunOut.mk (.ok (.completed [("n3", .num 2)]))
        [Ev.node_end "n3" "n3", Ev.state_update [("n3", .num 2)] [] "n3"]
        ["n3"]).trace = true :=
  ⟨rfl,
    run_trace_event_discipline regLeaf (fun _ => constBody (.num 2)) 5
      ⟨[nodeC "n3" "" "leaf"], []⟩
      (RunOut.mk (.ok (.completed [("n3", .num 2)]))
        [Ev.node_end "n3" "n3", Ev.state_update [("n3", .num 2)] [] "n3"]
        ["n3"]) rfl⟩

/-- Helper: an assignment to one key does not change the lookup of another. -/
theorem lookupE_setKey_other (k k' : String) (v : Val) (h : k' ≠ k) :
    ∀ m : Entries, lookupE (setKey m k v) k' = lookupE m k' := by
  have hmap : ∀ m : Entries,
      lookupE (m.map (fun p => if p.1 == k then (p.1, v) else p)) k' =
        lookupE m k' := by
    intro m
    induction m with
    | nil => rfl
    | cons a t ih =>
      by_cases hak' : a.1 = k'
      · have hak : ¬ (a.1 = k) := by rw [hak']; exact h
        have hfa : (if (a.1 == k) = true then (a.1, v) else a) = a := by
          simp [hak]
        unfold lookupE
        rw [List.map_cons, hfa, List.find?_cons_of_pos _ (by simp [hak']),
          List.find?_cons_of_pos _ (by simp [hak'])]
      · by_cases hak : a.1 = k
        · have hfa : (if (a.1 == k) = true then (a.1, v) else a) = (a.1, v) := by
            simp [hak]
          unfold lookupE
          rw [List.map_cons, hfa, List.find?_cons_of_neg _ (by simp [hak']),
            List.find?_cons_of_neg _ (by simp [hak'])]
          exact ih
        · have hfa : (if (a.1 == k) = true then (a.1, v) else a) = a := by
            simp [hak]
          unfold lookupE
          rw [List.map_cons, hfa, List.find?_cons_of_neg _ (by simp [hak']),
            List.find?_cons_of_neg _ (by simp [hak'])]
          exact ih
  have happend : ∀ m : Entries, lookupE (m ++ [(k, v)]) k' = lookupE m k' := by
    intro m
    induction m with
    | nil =>
      unfold lookupE
      rw [List.nil_append, List.find?_cons_of_neg _ (by simp [Ne.symm h])]
    | cons a t ih =>
      by_cases hak' : a.1 = k'
      · unfold lookupE
        rw [List.cons_append, List.find?_cons_of_pos _ (by simp [hak']),
          List.find?_cons_of_pos _ (by simp [hak'])]
      · unfold lookupE
        rw [List.cons_append, List.find?_cons_of_neg _ (by simp [hak']),
          List.find?_cons_of_neg _ (by simp [hak'])]
        exact ih
  intro m
  unfold setKey
  by_cases hk : hasKey m k = true
  · simp only [hk, if_true]
    exact hmap m
  · simp only [Bool.not_eq_true] at hk
    simp only [hk, Bool.false_eq_true, if_false]
    exact happend m

/-- Helper: an update whose data lacks a key does not change that key's
lookup. -/
theorem lookupE_updMap_absent (k : String) :
    ∀ (data m : Entries), hasKey data k = false →
      lookupE (updMap m data) k = lookupE m k := by
  intro data
  induction data with
  | nil => intro m _; rfl
  | cons a rest ih =>
    intro m h
    simp [hasKey] at h
    have step : updMap m (a :: rest) = updMap (setKey m a.1 a.2) rest := rfl
    rw [step, ih (setKey m a.1 a.2) (by simp [hasKey]; exact h.2)]
    exact lookupE_setKey_other a.1 k a.2 (fun hh => h.1 (hh ▸ rfl)) m

/-- Helper: a successful lookup means the key is present. -/
theorem hasKey_of_lookupE (m : Entries) (k : String) (v : Val)
    (h : lookupE m k = some v) : hasKey m k = true := by
  unfold lookupE at h
  cases hfind : m.find? (fun p => p.1 == k) with
  | none => rw [hfind] at h; simp at h
  | some p =>
    have hp := List.find?_some hfind
    have hm := List.mem_of_find?_eq_some hfind
    unfold hasKey
    exact List.any_eq_true.mpr ⟨p, hm, hp⟩

/-- Helper: erasure removes the key. -/
theorem hasKey_eraseKey (m : Entries) (k : String) :
    hasKey (eraseKey m k) k = false := by
  simp [hasKey, eraseKey, List.any_eq_true]

/-- Helper: the While evaluation context carries the stored counter when
`memory` does not shadow the `iteration` binding. -/
theorem whileEvalCtx_iteration (id : String) (ctx : Ctx) (c : Int)
    (hmem : hasKey ctx.memory "iteration" = false)
    (hstate : lookupE (ensuredExtra id ctx) (whileKey id) =
      some (Val.obj [("iteration", Val.num c)])) :
    lookupE (whileEvalCtx id ctx) "iteration" = some (Val.num c) := by
  simp only [whileEvalCtx]
  rw [hstate]
  cases hl : ctx.results.getLast? with
  | none =>
    simp only [hl]
    rw [lookupE_updMap_absent "iteration" ctx.memory _ hmem]
    simp [lookupE]
  | some p =>
    simp only [hl]
    rw [lookupE_setKey_other "input" "iteration" p.2 (by decide)]
    rw [lookupE_updMap_absent "iteration" ctx.memory _ hmem]
    simp [lookupE]

/-- Helper: evaluation of the While exec phase over a well-formed stored
counter: the unguarded cap check reads the context binding (here the true
counter, as memory does not shadow it) and wins over the condition. -/
theorem whileExec_eval (cfg : WhileCfg) (id : String) (ctx : Ctx) (c : Int)
    (hmem : hasKey ctx.memory "iteration" = false)
    (hstate : lookupE (ensuredExtra id ctx) (whileKey id) =
      some (Val.obj [("iteration", Val.num c)])) :
    whileExec cfg (whileEvalCtx id ctx) =
      .ok ((! decide (cfg.maxIterations ≤ c)) &&
        condAsBool (cfg.condition (whileEvalCtx id ctx))) := by
  unfold whileExec
  rw [whileEvalCtx_iteration id ctx c hmem hstate]
  by_cases hge : cfg.maxIterations ≤ c
  · simp [pyGeInt, hge, Bind.bind, Except.bind, Pure.pure, Except.pure]
  · have hlt : ¬ (c ≥ cfg.maxIterations) := hge
    cases hcond : cfg.condition (whileEvalCtx id ctx) with
    | ok b =>
      simp [pyGeInt, hge, hlt, hcond, condAsBool, Bind.bind, Except.bind,
        Pure.pure, Except.pure]
    | error e =>
      simp [pyGeInt, hge, hlt, hcond, condAsBool, Bind.bind, Except.bind,
        Pure.pure, Except.pure]

/-- Helper: a full While visit over a well-formed stored counter either
continues — when the counter is below the cap and the condition evaluates
to true — or routes done, deleting the loop state. -/
theorem whileVisit_eval (name id : String) (cfg : WhileCfg) (ctx : Ctx)
    (c : Int)
    (hmem : hasKey ctx.memory "iteration" = false)
    (hstate : lookupE (ensuredExtra id ctx) (whileKey id) =
      some (Val.obj [("iteration", Val.num c)])) :
    whileVisit name id cfg ctx =
      (if (! decide (cfg.maxIterations ≤ c)) &&
          condAsBool (cfg.condition (whileEvalCtx id ctx))
       then .ok (whileStepCtx name id ctx c, some "continue",
          postEvs id name (whileStepCtx name id ctx c))
       else .ok (whileDoneCtx name id ctx, some "done",
          postEvs id name (whileDoneCtx name id ctx))) := by
  unfold whileVisit visitNode
  have hbody : whileBody id cfg ctx =
      (if (! decide (cfg.maxIterations ≤ c)) &&
          condAsBool (cfg.condition (whileEvalCtx id ctx))
       then .ok (Val.num (c + 1),
          { ctx with extra := (setKey (ensuredExtra id ctx) (whileKey id)
              (Val.obj [("iteration", Val.num (c + 1))])) }, some "continue")
       else .ok (Val.str "while_complete",
          { ctx with extra := eraseKey (ensuredExtra id ctx) (whileKey id) },
          some "done")) := by
    unfold whileBody
    simp only [show (whilePrep id ctx) =
      ({ ctx with extra := ensuredExtra id ctx }, whileEvalCtx id ctx) from rfl]
    simp only [whileExec_eval cfg id ctx c hmem hstate, Bind.bind, Except.bind]
    cases hb : (! decide (cfg.maxIterations ≤ c)) &&
        condAsBool (cfg.condition (whileEvalCtx id ctx)) with
    | true =>
      simp only [hb, if_true]
      rw [hstate]
      simp [lookupE, setKey, hasKey]
    | false =>
      simp only [hb, Bool.false_eq_true, if_false]
  rw [hbody]
  cases hb : (! decide (cfg.maxIterations ≤ c)) &&
      condAsBool (cfg.condition (whileEvalCtx id ctx)) with
  | true =>
    simp only [if_true, Bind.bind, Except.bind]
    rfl
  | false =>
    simp only [Bool.false_eq_true, if_false, Bind.bind, Except.bind]
    rfl

/-- Helper: the continuing visit keeps memory and stores counter `c + 1`. -/
theorem whileStepCtx_state (name id : String) (ctx : Ctx) (c : Int) :
    (whileStepCtx name id ctx c).memory = ctx.memory ∧
    lookupE (ensuredExtra id (whileStepCtx name id ctx c)) (whileKey id) =
      some (Val.obj [("iteration", Val.num (c + 1))]) := by
  constructor
  · unfold whileStepCtx basePost
    rfl
  · have hlook : lookupE (whileStepCtx name id ctx c).extra (whileKey id) =
        some (Val.obj [("iteration", Val.num (c + 1))]) := by
      unfold whileStepCtx basePost
      exact lookupE_setKey_self _ _ _
    unfold ensuredExtra
    rw [hasKey_of_lookupE _ _ _ hlook]
    simpa using hlook

/-- Helper: the terminating visit keeps memory and removes the loop state. -/
theorem whileDoneCtx_state (name id : String) (ctx : Ctx) :
    (whileDoneCtx name id ctx).memory = ctx.memory ∧
    hasKey (whileDoneCtx name id ctx).extra (whileKey id) = false := by
  constructor
  · unfold whileDoneCtx basePost
    rfl
  · unfold whileDoneCtx basePost
    exact hasKey_eraseKey _ _

/-- Helper: with an always-true condition and a well-formed counter at `c`,
`k + 1` further visits (where the cap equals `c + k`) yield exactly `k`
`continue` transitions, then `done`, and remove the loop state. -/
theorem whileTransitions_true_cond (name id : String) (cfg : WhileCfg)
    (hcond : ∀ e, cfg.condition e = .ok true) :
    ∀ (k : Nat) (ctx : Ctx) (c : Nat),
      hasKey ctx.memory "iteration" = false →
      lookupE (ensuredExtra id ctx) (whileKey id) =
        some (Val.obj [("iteration", Val.num (c : Int))]) →
      cfg.maxIterations = ((c + k : Nat) : Int) →
      ∃ ctx', whileTransitions name id cfg (k + 1) ctx =
          .ok (List.replicate k "continue" ++ ["done"], ctx') ∧
        hasKey ctx'.extra (whileKey id) = false ∧
        ctx'.memory = ctx.memory := by
  intro k
  induction k with
  | zero =>
    intro ctx c hmem hstate hmax
    have hcap : cfg.maxIterations ≤ (c : Int) := by
      rw [hmax]; push_cast; omega
    have hb : ((! decide (cfg.maxIterations ≤ (c : Int))) &&
        condAsBool (cfg.condition (whileEvalCtx id ctx))) = false := by
      simp [hcap]
    have hv : whileVisit name id cfg ctx =
        .ok (whileDoneCtx name id ctx, some "done",
          postEvs id name (whileDoneCtx name id ctx)) := by
      rw [whileVisit_eval name id cfg ctx (c : Int) hmem hstate, hb]
      simp
    refine ⟨whileDoneCtx name id ctx, ?_,
      (whileDoneCtx_state name id ctx).2, (whileDoneCtx_state name id ctx).1⟩
    simp [whileTransitions, hv, Bind.bind, Except.bind]
  | succ k ih =>
    intro ctx c hmem hstate hmax
    have hcap : ¬ (cfg.maxIterations ≤ (c : Int)) := by
      rw [hmax]; push_cast; omega
    have hb : ((! decide (cfg.maxIterations ≤ (c : Int))) &&
        condAsBool (cfg.condition (whileEvalCtx id ctx))) = true := by
      simp [hcap, hcond, condAsBool]
    have hv : whileVisit name id cfg ctx =
        .ok (whileStepCtx name id ctx c, some "continue",
          postEvs id name (whileStepCtx name id ctx c)) := by
      rw [whileVisit_eval name id cfg ctx (c : Int) hmem hstate, hb]
      simp
    have hst := whileStepCtx_state name id ctx (c : Int)
    have hmem' : hasKey (whileStepCtx name id ctx (c : Int)).memory
        "iteration" = false := by
      rw [hst.1]; exact hmem
    have hstate' : lookupE (ensuredExtra id (whileStepCtx name id ctx (c : Int)))
        (whileKey id) =
        some (Val.obj [("iteration", Val.num ((c + 1 : Nat) : Int))]) := by
      rw [hst.2]
      norm_cast
    have hmax' : cfg.maxIterations = (((c + 1) + k : Nat) : Int) := by
      rw [hmax]
      norm_cast
      omega
    obtain ⟨ctx', heq, hk1, hk2⟩ :=
      ih (whileStepCtx name id ctx (c : Int)) (c + 1) hmem' hstate' hmax'
    refine ⟨ctx', ?_, hk1, by rw [hk2, hst.1]⟩
    conv_lhs => rw [whileTransitions]
    rw [hv]
    simp only [Bind.bind, Except.bind]
    rw [heq]
    simp [List.replicate_succ]

/-- Helper: from a well-formed counter at `c ≤ n` (the cap), any sequence of
successful visits yields at most `n - c` `continue` transitions before the
first `done`: the cap always wins. -/
theorem whileTransitions_cap (name id : String) (cfg : WhileCfg) (n : Nat)
    (hmax : cfg.maxIterations = (n : Int)) :
    ∀ (m : Nat) (ctx : Ctx) (c : Nat) (ts : List String) (ctx₂ : Ctx),
      hasKey ctx.memory "iteration" = false →
      lookupE (ensuredExtra id ctx) (whileKey id) =
        some (Val.obj [("iteration", Val.num (c : Int))]) →
      c ≤ n →
      whileTransitions name id cfg m ctx = .ok (ts, ctx₂) →
      (ts.takeWhile (fun s => s == "continue")).length ≤ n - c := by
  intro m
  induction m with
  | zero =>
    intro ctx c ts ctx₂ hmem hstate hc h
    simp [whileTransitions] at h
    rw [h.1]
    simp
  | succ m ih =>
    intro ctx c ts ctx₂ hmem hstate hc h
    cases hb : (! decide (cfg.maxIterations ≤ (c : Int))) &&
        condAsBool (cfg.condition (whileEvalCtx id ctx)) with
    | false =>
      have hv : whileVisit name id cfg ctx =
          .ok (whileDoneCtx name id ctx, some "done",
            postEvs id name (whileDoneCtx name id ctx)) := by
        rw [whileVisit_eval name id cfg ctx (c : Int) hmem hstate, hb]
        simp
      cases hrec : whileTransitions name id cfg m (whileDoneCtx name id ctx) with
      | error e =>
        rw [whileTransitions] at h
        rw [hv] at h
        simp [Bind.bind, Except.bind, hrec] at h
      | ok p =>
        rw [whileTransitions] at h
        rw [hv] at h
        simp [Bind.bind, Except.bind, hrec] at h
        rw [← h.1]
        simp [List.takeWhile]
    | true =>
      have hlt : c < n := by
        rcases Nat.lt_or_ge c n with hl | hg
        · exact hl
        · exfalso
          have : cfg.maxIterations ≤ (c : Int) := by
            rw [hmax]
            exact_mod_cast hg
          simp [this] at hb
      have hv : whileVisit name id cfg ctx =
          .ok (whileStepCtx name id ctx c, some "continue",
            postEvs id name (whileStepCtx name id ctx c)) := by
        rw [whileVisit_eval name id cfg ctx (c : Int) hmem hstate, hb]
        simp
      cases hrec : whileTransitions name id cfg m
          (whileStepCtx name id ctx (c : Int)) with
      | error e =>
        rw [whileTransitions] at h
        rw [hv] at h
        simp [Bind.bind, Except.bind, hrec] at h
      | ok p =>
        rw [whileTransitions] at h
        rw [hv] at h
        simp [Bind.bind, Except.bind, hrec] at h
        have hst := whileStepCtx_state name id ctx (c : Int)
        have hmem' : hasKey (whileStepCtx name id ctx (c : Int)).memory
            "iteration" = false := by
          rw [hst.1]; exact hmem
        have hstate' : lookupE
            (ensuredExtra id (whileStepCtx name id ctx (c : Int)))
            (whileKey id) =
            some (Val.obj [("iteration", Val.num ((c + 1 : Nat) : Int))]) := by
          rw [hst.2]
          norm_cast
        have hbound := ih (whileStepCtx name id ctx (c : Int)) (c + 1) p.1 p.2
          hmem' hstate' (by omega) (by rw [hrec])
        rw [← h.1]
        simp only [List.takeWhile]
        simp only [show (("continue" == "continue") = true) from rfl]
        simp only [List.length_cons]
        omega

/-- C5 counterexample: a memory binding of the key `"iteration"` shadows the
loop counter in the evaluation context (`context.update(memory)`,
control_flow.py:211), and the unguarded cap check reads the shadowed
binding — with `memory.iteration = 0`, `max_iterations = 5` and an
always-true condition, six consecutive visits all yield `continue`, so the
cap does not always win. -/
theorem while_cap_shadowed_by_memory :
    transitionsOf (whileTransitions "W" "w1" ⟨fun _ => .ok true, 5⟩ 6
        ⟨[], [("iteration", Val.num 0)], []⟩) =
      ["continue", "continue", "continue", "continue", "continue",
        "continue"] ∧
    hasKey (Ctx.mk [] [("iteration", Val.num 0)] []).memory "iteration" =
      true :=
  ⟨rfl, rfl⟩

/-- C5 amended: provided the run's memory does not bind the key `iteration`,
a While node with `max_iterations = n`, visited from a fresh loop state,
yields at most `n` `continue` transitions before the first `done` under
every condition expression — the cap is checked before the condition and
wins — and with an always-true condition yields exactly `n` `continue`
transitions, then `done`, removing its loop-state entry. -/
theorem while_iteration_cap_wins (name id : String) (cfg : WhileCfg)
    (n m : Nat) (ctx : Ctx) (ts : List String) (ctx₂ : Ctx)
    (hmem : hasKey ctx.memory "iteration" = false)
    (hfresh : hasKey ctx.extra (whileKey id) = false)
    (hmax : cfg.maxIterations = (n : Int)) :
    (whileTransitions name id cfg m ctx = .ok (ts, ctx₂) →
      (ts.takeWhile (fun s => s == "continue")).length ≤ n) ∧
    ((∀ e, cfg.condition e = .ok true) →
      ∃ ctx', whileTransitions name id cfg (n + 1) ctx =
        .ok (List.replicate n "continue" ++ ["done"], ctx') ∧
        hasKey ctx'.extra (whileKey id) = false) := by
  have hstate : lookupE (ensuredExtra id ctx) (whileKey id) =
      some (Val.obj [("iteration", Val.num ((0 : Nat) : Int))]) := by
    unfold ensuredExtra
    rw [hfresh]
    simp only [Bool.false_eq_true, if_false]
    have := lookupE_append_new (whileKey id)
      (Val.obj [("iteration", Val.num 0)]) ctx.extra hfresh
    simpa using this
  constructor
  · intro h
    have hb := whileTransitions_cap name id cfg n hmax m ctx 0 ts ctx₂
      hmem hstate (Nat.zero_le n) h
    simpa using hb
  · intro hcond
    obtain ⟨ctx', heq, hk, _⟩ := whileTransitions_true_cond name id cfg hcond
      n ctx 0 hmem hstate (by simpa using hmax)
    exact ⟨ctx', heq, hk⟩

/-- C5 witness: `max_iterations = 5` with an always-true condition over six
concrete visits: five `continue`, one `done`, loop state gone. -/
theorem while_iteration_cap_wins_witness :
    (hasKey Ctx.empty.memory "iteration" = false ∧
      hasKey Ctx.empty.extra (whileKey "w1") = false ∧
      (WhileCfg.mk (fun _ => Except.ok true) 5).maxIterations =
        ((5 : Nat) : Int) ∧
      whileTransitions "W" "w1" (WhileCfg.mk (fun _ => Except.ok true) 5) 6
          Ctx.empty =
        .ok (["continue", "continue", "continue", "continue", "continue",
            "done"],
          ⟨[("W", .str "while_complete"), ("w1", .str "while_complete")],
            [], []⟩)) ∧
    ((["continue", "continue", "continue", "continue", "continue",
        "done"].takeWhile (fun s => s == "continue")).length ≤ 5 ∧
      ∃ ctx', whileTransitions "W" "w1"
          (WhileCfg.mk (fun _ => Except.ok true) 5) (5 + 1) Ctx.empty =
        .ok (List.replicate 5 "continue" ++ ["done"], ctx') ∧
        hasKey ctx'.extra (whileKey "w1") = false) :=
  ⟨⟨rfl, rfl, rfl, rfl⟩,
    ⟨(while_iteration_cap_wins "W" "w1" ⟨fun _ => .ok true, 5⟩ 5 6 Ctx.empty
        ["continue", "continue", "continue", "continue", "continue", "done"]
        ⟨[("W", .str "while_complete"), ("w1", .str "while_complete")], [], []⟩
        rfl rfl rfl).1 rfl,
      (while_iteration_cap_wins "W" "w1" ⟨fun _ => .ok true, 5⟩ 5 6 Ctx.empty
        ["continue", "continue", "continue", "continue", "continue", "done"]
        ⟨[("W", .str "while_complete"), ("w1", .str "while_complete")], [], []⟩
        rfl rfl rfl).2 (fun _ => rfl)⟩⟩

/-- Helper: the delete-then-insert write is idempotent. -/
theorem writeResult_twice (r : Entries) (k : String) (v : Val) :
    writeResult (writeResult r k v) k v = writeResult r k v := by
  simp [writeResult, eraseKey, List.filter_append, List.filter_filter]

/-- Helper: writing an absent key appends it. -/
theorem writeResult_absent (r : Entries) (k : String) (v : Val)
    (h : hasKey r k = false) : writeResult r k v = r ++ [(k, v)] := by
  unfold writeResult eraseKey
  rw [List.filter_eq_self.mpr]
  intro p hp
  simp [hasKey] at h
  simp [h p.1 p.2 (by simpa using hp)]

/-- Helper: assigning an absent key appends it. -/
theorem setKey_absent (m : Entries) (k : String) (v : Val)
    (h : hasKey m k = false) : setKey m k v = m ++ [(k, v)] := by
  unfold setKey
  rw [h]
  simp

/-- Helper: key membership over an appended singleton. -/
theorem hasKey_append_single (m : Entries) (k k' : String) (v : Val) :
    hasKey (m ++ [(k, v)]) k' = (hasKey m k' || (k == k')) := by
  simp [hasKey, List.any_append]

/-- Helper: a visit of a memory-writing leaf with no successor commits its
value once, writes its memory key, and ends the branch. -/
theorem visit_memwriter (g : CGraph) (t : String) (fuel : Nat) (ctx : Ctx)
    (im0 : List (String × String))
    (ht : t ≠ "")
    (hfind : g.nodes.find? (fun n => n.cfg.id == t) =
      some ⟨nodeC t "" "leaf", t, im0⟩)
    (hnosucc : lookupSucc g t "default" = none)
    (hres : hasKey ctx.results t = false)
    (hmem : hasKey ctx.memory t = false) :
    walkFrom bodyFan g (fuel + 1) (.one t) ctx =
      ⟨⟨ctx.results ++ [(t, Val.num 1)], ctx.memory ++ [(t, Val.num 1)],
          ctx.extra⟩,
        postEvs t t ⟨ctx.results ++ [(t, Val.num 1)],
          ctx.memory ++ [(t, Val.num 1)], ctx.extra⟩,
        [t], .ok⟩ := by
  have hbody : bodyFan (nodeC t "" "leaf") ctx =
      .ok (Val.num 1, { ctx with memory := setKey ctx.memory t (Val.num 1) },
        none) := rfl
  have hw : writeResult (writeResult ctx.results t (Val.num 1)) t (Val.num 1) =
      ctx.results ++ [(t, Val.num 1)] := by
    rw [writeResult_twice, writeResult_absent _ _ _ hres]
  simp only [walkFrom, hfind, hbody, Option.getD]
  simp only [basePost, nodeC, postEvs]
  simp [hnosucc, ht, hw, setKey_absent ctx.memory t (Val.num 1) hmem]

/-- Helper: the synthetic fan-out over successor-free, distinct, fresh-keyed
targets visits each exactly once, in declaration order, threading one
shared context: afterwards every target's memory key and results entry are
present, in order, and the walk ends normally. -/
theorem fanout_walk (g : CGraph) :
    ∀ (rem : List String) (fuel : Nat) (ctx : Ctx),
      rem.length + 1 ≤ fuel →
      rem.Nodup →
      (∀ t ∈ rem, t ≠ "" ∧ ∃ im0,
        g.nodes.find? (fun n => n.cfg.id == t) =
          some ⟨nodeC t "" "leaf", t, im0⟩) →
      (∀ t ∈ rem, lookupSucc g t "default" = none) →
      (∀ t ∈ rem, hasKey ctx.results t = false ∧ hasKey ctx.memory t = false) →
      (walkFrom bodyFan g fuel (.fanout rem) ctx).ctx =
          ⟨ctx.results ++ rem.map (fun t => (t, Val.num 1)),
            ctx.memory ++ rem.map (fun t => (t, Val.num 1)), ctx.extra⟩ ∧
      (walkFrom bodyFan g fuel (.fanout rem) ctx).execs = rem ∧
      (walkFrom bodyFan g fuel (.fanout rem) ctx).outcome = .ok := by
  intro rem
  induction rem with
  | nil =>
    intro fuel ctx hfuel _ _ _ _
    cases fuel with
    | zero => exact absurd hfuel (by omega)
    | succ f => simp [walkFrom]
  | cons t rest ih =>
    intro fuel ctx hfuel hnodup hfind hnosucc hfresh
    cases fuel with
    | zero => exact absurd hfuel (by omega)
    | succ f =>
      have hf : rest.length + 1 ≤ f := by
        simp at hfuel
        omega
      cases f with
      | zero => exact absurd hf (by omega)
      | succ f' =>
        obtain ⟨ht, im0, hfind_t⟩ := hfind t (List.mem_cons_self t rest)
        have hv := visit_memwriter g t f' ctx im0 ht hfind_t
          (hnosucc t (List.mem_cons_self t rest))
          (hfresh t (List.mem_cons_self t rest)).1
          (hfresh t (List.mem_cons_self t rest)).2
        have hnodup' : rest.Nodup := (List.nodup_cons.mp hnodup).2
        have htnotin : t ∉ rest := (List.nodup_cons.mp hnodup).1
        have hctx' : ∀ u ∈ rest,
            hasKey (ctx.results ++ [(t, Val.num 1)]) u = false ∧
            hasKey (ctx.memory ++ [(t, Val.num 1)]) u = false := by
          intro u hu
          have hut : (t == u) = false := by
            simp
            intro hh
            exact htnotin (hh ▸ hu)
          have h1 := hfresh u (List.mem_cons_of_mem t hu)
          rw [hasKey_append_single, hasKey_append_single, h1.1, h1.2, hut]
          simp
        have hrest := ih (f' + 1)
          ⟨ctx.results ++ [(t, Val.num 1)], ctx.memory ++ [(t, Val.num 1)],
            ctx.extra⟩
          hf hnodup'
          (fun u hu => hfind u (List.mem_cons_of_mem t hu))
          (fun u hu => hnosucc u (List.mem_cons_of_mem t hu))
          hctx'
        refine ⟨?_, ?_, ?_⟩
        · conv_lhs =>
            rw [walkFrom]
            rw [hv]
          dsimp only
          rw [hrest.1]
          simp [List.append_assoc]
        · conv_lhs =>
            rw [walkFrom]
            rw [hv]
          dsimp only
          rw [hrest.2.1]
          simp
        · conv_lhs =>
            rw [walkFrom]
            rw [hv]
          dsimp only
          rw [hrest.2.2]

/-- Helper: every node of the fan-out family has the registered type. -/
theorem fanWf_instNodes (src : String) (tids : List String) :
    instNodes regLeaf (fanWf src tids) = (fanWf src tids).nodes := by
  apply List.filter_eq_self.mpr
  intro n hn
  simp [fanWf, nodeC] at hn
  rcases hn with h | ⟨t, ht, h⟩
  · subst h; rfl
  · rw [← h]; rfl

/-- Helper: every edge of the fan-out family connects instantiated nodes. -/
theorem fanWf_connectedEdges (src : String) (tids : List String) :
    connectedEdges regLeaf (fanWf src tids) =
      tids.map (fun t => edgeC src t) := by
  apply List.filter_eq_self.mpr
  intro e he
  simp only [fanWf] at he
  simp only [List.mem_map] at he
  obtain ⟨t, ht, rfl⟩ := he
  rw [fanWf_instNodes]
  rw [Bool.and_eq_true]
  constructor
  · apply List.any_eq_true.mpr
    exact ⟨nodeC src "" "leaf", by simp [fanWf], by simp [edgeC, nodeC]⟩
  · apply List.any_eq_true.mpr
    refine ⟨nodeC t "" "leaf", ?_, by simp [edgeC, nodeC]⟩
    simp [fanWf]
    exact .inr ⟨t, ht, rfl⟩

/-- Helper: compilation of the fan-out family: all nodes instantiated, all
edges connected, and the source as the single root. -/
theorem fanWf_build (src : String) (tids : List String) (hsrc : src ∉ tids) :
    build_graph regLeaf (fanWf src tids) =
      .ok ⟨(fanWf src tids).nodes.map (fun n =>
          ⟨n, displayName n, inputMappingFor regLeaf (fanWf src tids) n.id⟩),
        tids.map (fun t => edgeC src t), [src]⟩ := by
  have hdegsrc : inDeg (fanWf src tids) src = 0 := by
    unfold inDeg
    rw [show (fanWf src tids).edges = tids.map (fun t => edgeC src t) from rfl]
    rw [List.filter_eq_nil_iff.mpr]
    · rfl
    · intro e he
      simp only [List.mem_map] at he
      obtain ⟨t, ht, rfl⟩ := he
      simp [edgeC]
      intro hh
      exact hsrc (hh ▸ ht)
  have hdegt : ∀ t ∈ tids, (inDeg (fanWf src tids) t == 0) = false := by
    intro t ht
    have : edgeC src t ∈ (fanWf src tids).edges.filter
        (fun e => e.target == t) := by
      rw [List.mem_filter]
      exact ⟨by simp [fanWf]; exact ⟨t, ht, rfl⟩, by simp [edgeC]⟩
    have hpos : 0 < inDeg (fanWf src tids) t := by
      unfold inDeg
      exact List.length_pos.mpr (List.ne_nil_of_mem this)
    simp
    omega
  have hroots : ((instNodes regLeaf (fanWf src tids)).filter
      (fun n => inDeg (fanWf src tids) n.id == 0)).map (fun n => n.id) =
      [src] := by
    rw [fanWf_instNodes]
    rw [show (fanWf src tids).nodes =
      nodeC src "" "leaf" :: tids.map (fun t => nodeC t "" "leaf") from rfl]
    rw [List.filter_cons_of_pos (by simp [nodeC, hdegsrc])]
    rw [show (tids.map (fun t => nodeC t "" "leaf")).filter
        (fun n => inDeg (fanWf src tids) n.id == 0) = [] from ?_]
    · simp [nodeC]
    · rw [List.filter_eq_nil_iff]
      intro n hn
      simp only [List.mem_map] at hn
      obtain ⟨t, ht, rfl⟩ := hn
      simp only [nodeC]
      rw [hdegt t ht]
      simp
  simp only [build_graph]
  rw [hroots, fanWf_instNodes, fanWf_connectedEdges]
  simp

/-- Helper: finding a node by id in an id-faithful mapped node list. -/
theorem find?_map_nodes (F : String → CNode) (hF : ∀ u, (F u).cfg.id = u) :
    ∀ (l : List String) (t : String), t ∈ l →
      (l.map F).find? (fun n => n.cfg.id == t) = some (F t) := by
  intro l
  induction l with
  | nil => intro t ht; cases ht
  | cons a rest ih =>
    intro t ht
    by_cases hat : a = t
    · subst hat
      rw [List.map_cons, List.find?_cons_of_pos _ (by simp [hF])]
    · cases ht with
      | head => exact absurd rfl hat
      | tail _ ht2 =>
        rw [List.map_cons, List.find?_cons_of_neg _ (by simp [hF, hat])]
        exact ih t ht2

/-- Helper: a list of two or more targets compiles to the fan-out wrapper. -/
theorem succ_of_two_or_more (l : List String) :
    2 ≤ l.length →
    (match l with
      | [] => none
      | [t] => some (Succ.one t)
      | ts => some (Succ.fanout ts)) = some (Succ.fanout l) := by
  match l with
  | a :: b :: r => intro _; rfl
  | [] => intro h; exact absurd h (by simp)
  | [a] => intro h; exact absurd h (by simp)

/-- Helper: projection of a visit that continues into a successor. -/
theorem visit_chain (g : CGraph) (t : String) (fuel : Nat) (ctx : Ctx)
    (nd : CNode) (v : Val) (ctx1 : Ctx) (tr : Option String) (s : Succ)
    (hfind : g.nodes.find? (fun n => n.cfg.id == t) = some nd)
    (hbody : bodyFan nd.cfg ctx = .ok (v, ctx1, tr))
    (hsucc : lookupSucc g nd.cfg.id (tr.getD "default") = some s) :
    walkFrom bodyFan g (fuel + 1) (.one t) ctx =
      ⟨(walkFrom bodyFan g fuel s (basePost nd.name nd.cfg.id v ctx1)).ctx,
        [Ev.node_end nd.cfg.id nd.name,
          Ev.state_update (basePost nd.name nd.cfg.id v ctx1).results
            (basePost nd.name nd.cfg.id v ctx1).memory nd.cfg.id] ++
          (walkFrom bodyFan g fuel s (basePost nd.name nd.cfg.id v ctx1)).trace,
        t :: (walkFrom bodyFan g fuel s
          (basePost nd.name nd.cfg.id v ctx1)).execs,
        (walkFrom bodyFan g fuel s
          (basePost nd.name nd.cfg.id v ctx1)).outcome⟩ := by
  simp only [walkFrom, hfind, hbody, hsucc]

/-- Helper: lookup of a present key in a constant-valued mapped list. -/
theorem lookupE_const_map (v : Val) :
    ∀ (l : List String) (t : String), t ∈ l →
      lookupE (l.map (fun u => (u, v))) t = some v := by
  intro l
  induction l with
  | nil => intro t ht; cases ht
  | cons a rest ih =>
    intro t ht
    by_cases hat : a = t
    · subst hat
      unfold lookupE
      rw [List.map_cons, List.find?_cons_of_pos _ (by simp)]
      rfl
    · cases ht with
      | head => exact absurd rfl hat
      | tail _ ht2 =>
        unfold lookupE
        rw [List.map_cons, List.find?_cons_of_neg _ (by simp [hat])]
        exact ih t ht2

/-- C4 amended: for a group of two or more same-label edges out of one
source, compilation wraps the targets in the synthetic fan-out; when no
listed target is reachable from another (here: targets with no outgoing
edges), running it executes the source and then every listed target
exactly once, sequentially in edge-declaration order, against the one
shared context — the memory key each target writes is present afterwards —
and the fan-out wrapper contributes no entry to the results map (the
results hold exactly the source's and the targets' commits). -/
theorem fanout_executes_each_target_once (src : String) (tids : List String)
    (hsrc : src ∉ tids) (hnodup : tids.Nodup) (hlen : 2 ≤ tids.length)
    (hsrcne : src ≠ "") (htne : ∀ t ∈ tids, t ≠ "") :
    rootsOf (build_graph regLeaf (fanWf src tids)) = some [src] ∧
    execsOf (run_workflow regLeaf bodyFan (tids.length + 1 + 1)
        (fanWf src tids)) = src :: tids ∧
    resultsOfRun (run_workflow regLeaf bodyFan (tids.length + 1 + 1)
        (fanWf src tids)) =
      some ((src, Val.num 1) :: tids.map (fun t => (t, Val.num 1))) ∧
    (walkList bodyFan (fanGraph src tids) (tids.length + 1 + 1) [src]
        Ctx.empty).ctx.memory =
      (src, Val.num 1) :: tids.map (fun t => (t, Val.num 1)) ∧
    ∀ t ∈ tids, lookupE
        ((src, Val.num 1) :: tids.map (fun u => (u, Val.num 1))) t =
      some (Val.num 1) := by
  have hbuild : build_graph regLeaf (fanWf src tids) =
      .ok (fanGraph src tids) := fanWf_build src tids hsrc
  have hnodes : (fanGraph src tids).nodes =
      (⟨nodeC src "" "leaf", displayName (nodeC src "" "leaf"),
          inputMappingFor regLeaf (fanWf src tids) src⟩ : CNode) ::
        tids.map (fun u =>
          (⟨nodeC u "" "leaf", displayName (nodeC u "" "leaf"),
            inputMappingFor regLeaf (fanWf src tids) u⟩ : CNode)) := by
    simp [fanGraph, fanWf, List.map_map, Function.comp_def, nodeC]
  have hfindsrc : (fanGraph src tids).nodes.find?
      (fun n => n.cfg.id == src) =
      some ⟨nodeC src "" "leaf", src,
        inputMappingFor regLeaf (fanWf src tids) src⟩ := by
    rw [hnodes, List.find?_cons_of_pos _ (by simp [nodeC])]
    simp [displayName, nodeC]
  have hfindt : ∀ t ∈ tids, (fanGraph src tids).nodes.find?
      (fun n => n.cfg.id == t) =
      some ⟨nodeC t "" "leaf", t,
        inputMappingFor regLeaf (fanWf src tids) t⟩ := by
    intro t ht
    rw [hnodes, List.find?_cons_of_neg _ ?_]
    · have hfm := find?_map_nodes (fun u =>
        (⟨nodeC u "" "leaf", displayName (nodeC u "" "leaf"),
          inputMappingFor regLeaf (fanWf src tids) u⟩ : CNode))
        (fun u => rfl) tids t ht
      rw [hfm]
      simp [displayName, nodeC]
    · simp [nodeC]
      intro hh
      exact hsrc (hh ▸ ht)
  have hcedges : (fanGraph src tids).cedges =
      tids.map (fun t => edgeC src t) := rfl
  have hsuccsrc : lookupSucc (fanGraph src tids) src "default" =
      some (.fanout tids) := by
    unfold lookupSucc
    rw [hcedges]
    rw [List.filter_eq_self.mpr ?_]
    · rw [List.map_map]
      rw [show (tids.map ((fun e => e.target) ∘ fun t => edgeC src t)) =
        tids from by simp [Function.comp_def, edgeC]]
      exact succ_of_two_or_more tids hlen
    · intro e he
      simp only [List.mem_map] at he
      obtain ⟨u, hu, rfl⟩ := he
      simp [edgeC, edgeLabel]
  have hsucct : ∀ t ∈ tids, lookupSucc (fanGraph src tids) t "default" =
      none := by
    intro t ht
    unfold lookupSucc
    rw [hcedges]
    rw [List.filter_eq_nil_iff.mpr ?_]
    · rfl
    · intro e he
      simp only [List.mem_map] at he
      obtain ⟨u, hu, rfl⟩ := he
      simp [edgeC]
      intro hh
      exact False.elim (hsrc (hh ▸ ht))
  have hbodysrc : bodyFan (nodeC src "" "leaf") Ctx.empty =
      .ok (Val.num 1, ⟨[], [(src, Val.num 1)], []⟩, none) := rfl
  have hpost : basePost src src (Val.num 1) ⟨[], [(src, Val.num 1)], []⟩ =
      ⟨[(src, Val.num 1)], [(src, Val.num 1)], []⟩ := by
    simp [basePost, writeResult, eraseKey, hsrcne]
  have hchain := visit_chain (fanGraph src tids) src (tids.length + 1)
    Ctx.empty
    ⟨nodeC src "" "leaf", src, inputMappingFor regLeaf (fanWf src tids) src⟩
    (Val.num 1) ⟨[], [(src, Val.num 1)], []⟩ none (.fanout tids)
    hfindsrc hbodysrc hsuccsrc
  simp only [nodeC] at hchain
  rw [hpost] at hchain
  have hfresh1 : ∀ t ∈ tids,
      hasKey ((⟨[(src, Val.num 1)], [(src, Val.num 1)], []⟩ : Ctx)).results t
          = false ∧
      hasKey ((⟨[(src, Val.num 1)], [(src, Val.num 1)], []⟩ : Ctx)).memory t
          = false := by
    intro t ht
    have : (src == t) = false := by
      simp
      intro hh
      exact hsrc (hh ▸ ht)
    constructor <;> simp [hasKey, this]
  have hfan := fanout_walk (fanGraph src tids) tids (tids.length + 1)
    ⟨[(src, Val.num 1)], [(src, Val.num 1)], []⟩ (by omega) hnodup
    (fun t ht => ⟨htne t ht,
      ⟨inputMappingFor regLeaf (fanWf src tids) t, hfindt t ht⟩⟩)
    hsucct hfresh1
  have hWctx : (walkFrom bodyFan (fanGraph src tids) (tids.length + 1 + 1)
      (.one src) Ctx.empty).ctx =
      ⟨(src, Val.num 1) :: tids.map (fun t => (t, Val.num 1)),
        (src, Val.num 1) :: tids.map (fun t => (t, Val.num 1)), []⟩ := by
    rw [hchain]
    dsimp only
    rw [hfan.1]
    simp
  have hWexecs : (walkFrom bodyFan (fanGraph src tids) (tids.length + 1 + 1)
      (.one src) Ctx.empty).execs = src :: tids := by
    rw [hchain]
    dsimp only
    rw [hfan.2.1]
  have hWout : (walkFrom bodyFan (fanGraph src tids) (tids.length + 1 + 1)
      (.one src) Ctx.empty).outcome = .ok := by
    rw [hchain]
    dsimp only
    exact hfan.2.2
  have hLctx : (walkList bodyFan (fanGraph src tids) (tids.length + 1 + 1)
      [src] Ctx.empty) =
      ⟨⟨(src, Val.num 1) :: tids.map (fun t => (t, Val.num 1)),
          (src, Val.num 1) :: tids.map (fun t => (t, Val.num 1)), []⟩,
        (walkFrom bodyFan (fanGraph src tids) (tids.length + 1 + 1)
          (.one src) Ctx.empty).trace,
        src :: tids, .ok⟩ := by
    rw [walkList, hWout]
    dsimp only
    rw [walkList]
    dsimp only
    rw [hWctx, hWexecs]
    simp
  have hroots2 : (fanGraph src tids).roots = [src] := rfl
  have hrun : run_workflow regLeaf bodyFan (tids.length + 1 + 1)
      (fanWf src tids) =
      some ⟨.ok (.completed ((src, Val.num 1) ::
          tids.map (fun t => (t, Val.num 1)))),
        (walkFrom bodyFan (fanGraph src tids) (tids.length + 1 + 1)
          (.one src) Ctx.empty).trace,
        src :: tids⟩ := by
    simp only [run_workflow, hbuild, hroots2, hLctx]
  refine ⟨by rw [hbuild]; rfl, ?_, ?_, ?_, ?_⟩
  · rw [hrun]
    rfl
  · rw [hrun]
    rfl
  · rw [hLctx]
  · intro t ht
    have : (src == t) = false := by
      simp
      intro hh
      exact hsrc (hh ▸ ht)
    unfold lookupE
    rw [List.find?_cons_of_neg _ (by simp [this])]
    exact lookupE_const_map (Val.num 1) tids t ht

/-- C4 counterexample: with edges `s → a`, `s → b` (one `(source, default)`
group wrapping targets `a, b`) plus `a → b`, running the fan-out executes
the listed target `b` twice — once as `a`'s downstream successor inside
`a`'s mini-flow and once as a listed target — refuting "executes every
listed target exactly once" for arbitrary compiled groups. -/
theorem fanout_target_reachable_executes_twice :
    execsOf (run_workflow regLeaf (fun _ => constBody (.num 0)) 10
      ⟨[nodeC "s" "" "leaf", nodeC "a" "" "leaf", nodeC "b" "" "leaf"],
       [edgeC "s" "a", edgeC "s" "b", edgeC "a" "b"]⟩) =
      ["s", "a", "b", "b"] ∧
    (["s", "a", "b", "b"].count "b") = 2 :=
  ⟨rfl, rfl⟩

/-- C4 witness: the two-target fan-out of the spec's scenario, concrete. -/
theorem fanout_executes_each_target_once_witness :
    (("s" : String) ∉ ["a", "b"] ∧ (["a", "b"] : List String).Nodup ∧
      2 ≤ (["a", "b"] : List String).length ∧ ("s" : String) ≠ "" ∧
      (∀ t ∈ (["a", "b"] : List String), t ≠ "")) ∧
    (rootsOf (build_graph regLeaf (fanWf "s" ["a", "b"])) = some ["s"] ∧
    execsOf (run_workflow regLeaf bodyFan ((["a", "b"] : List String).length + 1 + 1)
        (fanWf "s" ["a", "b"])) = "s" :: ["a", "b"] ∧
    resultsOfRun (run_workflow regLeaf bodyFan
        ((["a", "b"] : List String).length + 1 + 1) (fanWf "s" ["a", "b"])) =
      some (("s", Val.num 1) ::
        (["a", "b"] : List String).map (fun t => (t, Val.num 1))) ∧
    (walkList bodyFan (fanGraph "s" ["a", "b"])
        ((["a", "b"] : List String).length + 1 + 1) ["s"]
        Ctx.empty).ctx.memory =
      ("s", Val.num 1) ::
        (["a", "b"] : List String).map (fun t => (t, Val.num 1)) ∧
    ∀ t ∈ (["a", "b"] : List String), lookupE
        (("s", Val.num 1) ::
          (["a", "b"] : List String).map (fun u => (u, Val.num 1))) t =
      some (Val.num 1)) :=
  ⟨⟨by decide, by decide, by decide, by decide, by decide⟩,
    fanout_executes_each_target_once "s" ["a", "b"] (by decide) (by decide)
      (by decide) (by decide) (by decide)⟩

end PFG
